import Mathlib

/-!
# gotosser: the rule router, the transfer primitives, the scan filter and the reload step

A shallow embedding of `src/gotosser.go`.

* The operating system is a world of regular files (`World.fs`) together with a
  list of injected faults (`World.faults`): every call into `os`/`io` consumes one
  entry of that list and fails with its error when the entry is a fault; otherwise
  the call has its ordinary effect on the files (and fails on its own when the file
  it needs is missing).  Quantifying over the fault list quantifies over every
  outcome of the filesystem operations.
* Every function returns, next to its result and the new world, the list of events
  it emitted: one event per `os`/`io` call, per log line and per transfer.
* Directories are not tracked: `os.MkdirAll` only succeeds or fails.
* Methods of `Config`, `ScanGroup` and `CopyRule` whose bodies live outside
  `gotosser.go` (`match`, `matchExclude`, `getRuleKeys`) are fields of the
  structures; `filepath.*`, `strftime.Format` and `time.Now` are fields of `Env`.
-/

namespace Gotosser

/-! ## Errors -/

/-- The error numbers the model distinguishes. -/
inductive Errno
  | ENOENT | EACCES | EEXIST | ENOSPC | EDQUOT | EBUSY
  deriving DecidableEq, Repr

/-- Go `error` values: `*os.PathError`, `*os.LinkError`, the result of
`fmt.Errorf(format, err)` and plain error strings. -/
inductive GoError
  | pathError (op path : String) (errno : Errno)
  | linkError (op old new : String) (errno : Errno)
  | errorf (format : String) (cause : GoError)
  | errorString (msg : String)
  deriving DecidableEq, Repr

/-- The function `os.IsNotExist`: looks through `PathError`/`LinkError` at the errno;
an error built by `fmt.Errorf` with `%v` is not recognised. -/
def isNotExist : GoError → Bool
  | .pathError _ _ e => decide (e = Errno.ENOENT)
  | .linkError _ _ _ e => decide (e = Errno.ENOENT)
  | .errorf _ _ => false
  | .errorString _ => false

/-! ## Files, faults, worlds, events -/

/-- A regular file: its bytes and its permission bits. -/
structure File where
  content : List Nat
  mode : Nat
  deriving DecidableEq, Repr

/-- An injected failure of one `os`/`io` call; `written` is the number of bytes a
failing `io.Copy` had written before it failed. -/
structure Fault where
  errno : Errno
  written : Nat
  deriving DecidableEq, Repr

/-- The filesystem and the failures still to come. -/
structure World where
  fs : String → Option File
  faults : List (Option Fault)

/-- The calls into `os` and `io`. -/
inductive Sys
  | stat | mkdirAll | remove | rename | openFile | open | create | copy | close | chmod
  deriving DecidableEq, Repr

/-- Log levels of logrus used by the program. -/
inductive Level
  | debug | info | warn
  deriving DecidableEq, Repr

/-- Observable events. -/
inductive Event
  | sys (op : Sys) (path : String) (err : Option GoError)
  | log (level : Level) (msg : String)
  | fileLog (msg : String)
  | errorln (msg : String)
  | needProcess (res : Bool)
  | moveFile (src dst : String) (err : Option GoError)
  | copyFile (src dst : String) (err : Option GoError)
  | sendStat (path : String)
  | cacheDel (path : String)
  deriving DecidableEq, Repr

/-- Result of an effectful call: value, new world, emitted events. -/
abbrev Res (α : Type) := α × World × List Event

/-- Consume the next entry of the fault list. -/
def World.next (w : World) : Option Fault × World :=
  (w.faults.head?.join, { w with faults := w.faults.tail })

/-- Write (or delete, with `none`) one path. -/
def World.set (w : World) (path : String) (f : Option File) : World :=
  { w with fs := fun p => if p = path then f else w.fs p }

/-- A call that changes no file: fails on a fault or when `path` is missing. -/
def probe (op : Sys) (name : String) (path : String) (w : World) : Res (Option GoError) :=
  match w.next with
  | (some f, w1) =>
    let err := GoError.pathError name path f.errno
    (some err, w1, [Event.sys op path (some err)])
  | (none, w1) =>
    match w1.fs path with
    | some _ => (none, w1, [Event.sys op path none])
    | none =>
      let err := GoError.pathError name path Errno.ENOENT
      (some err, w1, [Event.sys op path (some err)])

/-- Call `os.Stat(path)`: the file's information, or the error. -/
def osStat (path : String) (w : World) : Res (Except GoError File) :=
  match w.next with
  | (some f, w1) =>
    let err := GoError.pathError "stat" path f.errno
    (.error err, w1, [Event.sys Sys.stat path (some err)])
  | (none, w1) =>
    match w1.fs path with
    | some file => (.ok file, w1, [Event.sys Sys.stat path none])
    | none =>
      let err := GoError.pathError "stat" path Errno.ENOENT
      (.error err, w1, [Event.sys Sys.stat path (some err)])

/-- Call `os.OpenFile(path, os.O_RDWR, 0666)`. -/
def osOpenFile (path : String) (w : World) : Res (Option GoError) :=
  probe Sys.openFile "open" path w

/-- Call `os.Open(path)`. -/
def osOpen (path : String) (w : World) : Res (Option GoError) := probe Sys.open "open" path w

/-- Call `f.Close()` on an open file. -/
def fileClose (path : String) (w : World) : Res (Option GoError) :=
  match w.next with
  | (some f, w1) =>
    let err := GoError.pathError "close" path f.errno
    (some err, w1, [Event.sys Sys.close path (some err)])
  | (none, w1) => (none, w1, [Event.sys Sys.close path none])

/-- Call `os.MkdirAll(path, os.ModeDir)`. -/
def osMkdirAll (path : String) (w : World) : Res (Option GoError) :=
  match w.next with
  | (some f, w1) =>
    let err := GoError.pathError "mkdir" path f.errno
    (some err, w1, [Event.sys Sys.mkdirAll path (some err)])
  | (none, w1) => (none, w1, [Event.sys Sys.mkdirAll path none])

/-- Call `os.Remove(path)`. -/
def osRemove (path : String) (w : World) : Res (Option GoError) :=
  match w.next with
  | (some f, w1) =>
    let err := GoError.pathError "remove" path f.errno
    (some err, w1, [Event.sys Sys.remove path (some err)])
  | (none, w1) =>
    match w1.fs path with
    | some _ => (none, w1.set path none, [Event.sys Sys.remove path none])
    | none =>
      let err := GoError.pathError "remove" path Errno.ENOENT
      (some err, w1, [Event.sys Sys.remove path (some err)])

/-- Call `os.Rename(src, dst)`: `dst` is replaced by the file of `src`. -/
def osRename (src dst : String) (w : World) : Res (Option GoError) :=
  match w.next with
  | (some f, w1) =>
    let err := GoError.linkError "rename" src dst f.errno
    (some err, w1, [Event.sys Sys.rename src (some err)])
  | (none, w1) =>
    match w1.fs src with
    | some file => (none, (w1.set src none).set dst (some file), [Event.sys Sys.rename src none])
    | none =>
      let err := GoError.linkError "rename" src dst Errno.ENOENT
      (some err, w1, [Event.sys Sys.rename src (some err)])

/-- Call `os.Create(path)`: creates the file with mode 0666 or truncates it. -/
def osCreate (path : String) (w : World) : Res (Option GoError) :=
  match w.next with
  | (some f, w1) =>
    let err := GoError.pathError "open" path f.errno
    (some err, w1, [Event.sys Sys.create path (some err)])
  | (none, w1) =>
    let mode := match w1.fs path with
      | some old => old.mode
      | none => 438
    (none, w1.set path (some { content := [], mode := mode }), [Event.sys Sys.create path none])

/-- Bytes of a file, empty when it is missing. -/
def World.bytes (w : World) (path : String) : List Nat :=
  match w.fs path with
  | some f => f.content
  | none => []

/-- Overwrite the bytes of an existing file. -/
def World.write (w : World) (path : String) (bytes : List Nat) : World :=
  match w.fs path with
  | some f => w.set path (some { f with content := bytes })
  | none => w

/-- Call `io.Copy(destfile, sourcefile)`: a failing copy leaves a prefix in `dst`. -/
def ioCopy (dst src : String) (w : World) : Res (Option GoError) :=
  match w.next with
  | (some f, w1) =>
    let err := GoError.pathError "write" dst f.errno
    (some err, w1.write dst ((w1.bytes src).take f.written), [Event.sys Sys.copy dst (some err)])
  | (none, w1) => (none, w1.write dst (w1.bytes src), [Event.sys Sys.copy dst none])

/-- Call `os.Chmod(path, mode)`. -/
def osChmod (path : String) (mode : Nat) (w : World) : Res (Option GoError) :=
  match w.next with
  | (some f, w1) =>
    let err := GoError.pathError "chmod" path f.errno
    (some err, w1, [Event.sys Sys.chmod path (some err)])
  | (none, w1) =>
    match w1.fs path with
    | some file => (none, w1.set path (some { file with mode := mode }), [Event.sys Sys.chmod path none])
    | none =>
      let err := GoError.pathError "chmod" path Errno.ENOENT
      (some err, w1, [Event.sys Sys.chmod path (some err)])

/-- The deferred `sourcefile.Close()` of `copyFile`: runs at return, its error is dropped. -/
def deferClose (src : String) (r : Res (Option GoError)) : Res (Option GoError) :=
  match fileClose src r.2.1 with
  | (_, w, e) => (r.1, w, r.2.2 ++ e)

/-! ## Transfer primitives -/

/-- The tail of `copyFile` after `io.Copy` and the close of `dst` went through:
`os.Stat(src)` and, when that succeeds, `os.Chmod(dst, sourceinfo.Mode())`. -/
def copyPerm (src dst : String) (w : World) : Res (Option GoError) :=
  match osStat src w with
  | (.error err, w1, e1) => (some err, w1, e1)
  | (.ok sourceinfo, w1, e1) =>
    match osChmod dst sourceinfo.mode w1 with
    | (err, w2, e2) => (err, w2, e1 ++ e2)

/-- The part of `copyFile` that runs while `sourcefile` is open. -/
def copyBody (src dst : String) (w : World) : Res (Option GoError) :=
  match osCreate dst w with
  | (some err, w1, e1) => (some err, w1, e1)
  | (none, w1, e1) =>
    match ioCopy dst src w1 with
    | (err, w2, e2) =>
      match fileClose dst w2 with
      | (closeErr, w3, e3) =>
        -- if closeErr := destfile.Close(); err == nil { err = closeErr }
        let err := if err = none then closeErr else err
        match err with
        | some e => (some e, w3, e1 ++ e2 ++ e3)
        | none =>
          match copyPerm src dst w3 with
          | (r, w4, e4) => (r, w4, e1 ++ e2 ++ e3 ++ e4)

/-- The function `copyFile(src, dst)`. -/
def copyFile (src dst : String) (w : World) : Res (Option GoError) :=
  match osOpen src w with
  | (some err, w1, e1) => (some err, w1, e1)
  | (none, w1, e1) =>
    match deferClose src (copyBody src dst w1) with
    | (r, w2, e2) => (r, w2, e1 ++ e2)

/-- The function `moveFile(src, dst)`; `volumeName` is `filepath.VolumeName`. -/
def moveFile (volumeName : String → String) (src dst : String) (w : World) :
    Res (Option GoError) :=
  if volumeName src = volumeName dst then
    match osRename src dst w with
    | (some err, w1, e1) => (some err, w1, e1)
    | (none, w1, e1) => (none, w1, e1)
  else
    match osOpenFile src w with
    | (some err, w1, e1) => (some err, w1, e1)
    | (none, w1, e1) =>
      match fileClose src w1 with
      | (some err, w2, e2) => (some err, w2, e1 ++ e2)
      | (none, w2, e2) =>
        match copyFile src dst w2 with
        | (some err, w3, e3) => (some err, w3, e1 ++ e2 ++ e3)
        | (none, w3, e3) =>
          match osRemove src w3 with
          | (some err, w4, e4) =>
            if isNotExist err then
              (none, w4, e1 ++ e2 ++ e3 ++ e4 ++
                [Event.log Level.warn "Файл перемещён, но удалить его не получилось: удалён кем-то ещё."])
            else
              (some (GoError.errorf "Файл перемещён. Но удалить его не получилось. %v" err), w4,
                e1 ++ e2 ++ e3 ++ e4)
          | (none, w4, e4) => (none, w4, e1 ++ e2 ++ e3 ++ e4)

/-! ## Configuration and work items -/

/-- A rule of a scan group.  `match_` and `matchExclude` stand for the methods
`rule.match` and `rule.matchExclude`, whose bodies are outside `gotosser.go`. -/
structure CopyRule where
  Mode : String
  DstDir : String
  IfExists : String
  match_ : String → Bool × Option GoError
  matchExclude : String → Bool

/-- Modelled from the spec: the zero value `CopyRule{}` that `processItems` hands to
`needExclude`.  The method `matchExclude` is not in `gotosser.go`; the spec has the scanner
drop only the entries "matching the global or group-level exclusion predicates", so the
exclusion predicate of the empty rule holds of no file. -/
def CopyRule.zero : CopyRule :=
  { Mode := "", DstDir := "", IfExists := "",
    match_ := fun _ => (false, none), matchExclude := fun _ => false }

/-- A scan group.  `Rules` is the lookup in the map of rules, `getRuleKeys` the
result of the method of that name, `matchExclude` the group-level exclusion method. -/
structure ScanGroup where
  SrcDirs : List String
  Enabled : Bool
  CreateSrc : Bool
  Rules : String → CopyRule
  getRuleKeys : List String
  matchExclude : String → Bool

/-- The configuration; `matchExclude` is the global exclusion method. -/
structure Config where
  ScanGroups : List ScanGroup
  RescanInterval : Int
  MaxCopyThreads : Int
  matchExclude : String → Bool

/-- A unit of work of the transfer workers. -/
structure processingItem where
  srcFile : String
  fullSrcFilePath : String
  scangroup : ScanGroup
  size : Int

/-- The pure library functions the program calls: `strftime.Format(·, time.Now())`,
`filepath.Join`, `filepath.Abs`, `filepath.Dir`, `filepath.VolumeName`. -/
structure Env where
  strftime : String → String
  join : String → String → String
  abs : String → Except GoError String
  dir : String → String
  volumeName : String → String

/-- Modelled from the spec: the deduplication cache `processing` (its type is declared
outside `gotosser.go`), "a set of absolute paths" with `check`, `add`, `del`. -/
abbrev ProcessingCache := List String

/-- Modelled from the spec: the method `check(path)` of the cache, which "reports current
membership without mutation". -/
def ProcessingCache.check (c : ProcessingCache) (path : String) : Bool := decide (path ∈ c)

/-- Modelled from the spec: the method `add(path)` of the cache, which "inserts
unconditionally". -/
def ProcessingCache.add (c : ProcessingCache) (path : String) : ProcessingCache := path :: c

/-- Modelled from the spec: the method `del(path)` of the cache, which "removes
unconditionally". -/
def ProcessingCache.del (c : ProcessingCache) (path : String) : ProcessingCache :=
  c.filter (fun p => decide (p ≠ path))

/-! ## The rule router -/

/-- The function `getAbsPath(dir, file)`. -/
def getAbsPath (env : Env) (dir file : String) : Except GoError String :=
  let filePath := env.join (env.strftime dir) file
  match env.abs filePath with
  | .error err => .error err
  | .ok abspath => .ok abspath

/-- The function `needExclude`; `cfg` is the package-level variable `cfg`. -/
def needExclude (cfg : Config) (file : String) (scangroup : ScanGroup) (rule : CopyRule) : Bool :=
  if cfg.matchExclude file then true
  else if scangroup.matchExclude file then true
  else if rule.matchExclude file then true
  else false

/-- The function `needProcess`. -/
def needProcess (cfg : Config) (item : processingItem) (rule : CopyRule) : Bool :=
  if !(rule.match_ item.srcFile).1 then false
  else if needExclude cfg item.srcFile item.scangroup rule then false
  else true

/-- The `switch rule.Mode` of `processItem` (lines 207-230): takes the flag `fileProcessed`,
returns `(fileMoved, fileProcessed)`. -/
def transfer (env : Env) (item : processingItem) (rule : CopyRule) (fullDstFilePath : String)
    (fileProcessed : Bool) (w : World) : Res (Bool × Bool) :=
  if rule.Mode = "move" then
    match moveFile env.volumeName item.fullSrcFilePath fullDstFilePath w with
    | (none, w1, e1) =>
      ((true, true), w1,
        [Event.log Level.debug "Перемещаем файл"] ++ e1 ++
        [Event.moveFile item.fullSrcFilePath fullDstFilePath none,
         Event.log Level.info "Файл перемещён", Event.fileLog "Файл перемещён"])
    | (some err, w1, e1) =>
      ((false, fileProcessed), w1,
        [Event.log Level.debug "Перемещаем файл"] ++ e1 ++
        [Event.moveFile item.fullSrcFilePath fullDstFilePath (some err),
         Event.errorln "Ошибка перемещения файла"])
  else if rule.Mode = "copy" then
    match copyFile item.fullSrcFilePath fullDstFilePath w with
    | (none, w1, e1) =>
      ((false, true), w1,
        [Event.log Level.debug "Копируем файл"] ++ e1 ++
        [Event.copyFile item.fullSrcFilePath fullDstFilePath none,
         Event.log Level.info "Файл скопирован", Event.fileLog "Файл скопирован"])
    | (some err, w1, e1) =>
      ((false, fileProcessed), w1,
        [Event.log Level.debug "Копируем файл"] ++ e1 ++
        [Event.copyFile item.fullSrcFilePath fullDstFilePath (some err),
         Event.errorln "Ошибка копирования файла"])
  else
    ((false, fileProcessed), w, [Event.errorln "Неизвестный режим"])

/-- The `if _, err := os.Stat(fullDstFilePath); err == nil` block of `processItem`
(lines 188-204) followed by the transfer. -/
def ifExists (env : Env) (item : processingItem) (rule : CopyRule) (fullDstFilePath : String)
    (fileProcessed : Bool) (w : World) : Res (Bool × Bool) :=
  match osStat fullDstFilePath w with
  | (.ok _, w1, e1) =>
    if rule.IfExists = "replace" then
      match osRemove fullDstFilePath w1 with
      | (some _, w2, e2) =>
        ((false, fileProcessed), w2,
          e1 ++ [Event.log Level.info "Файл существует. %s ifexists=%s. Удаляем файл в конечном каталоге"]
            ++ e2 ++ [Event.errorln "Файл существует. %s ifexists=%s. Файл удалить не получилось"])
      | (none, w2, e2) =>
        match transfer env item rule fullDstFilePath fileProcessed w2 with
        | (r, w3, e3) =>
          (r, w3,
            e1 ++ [Event.log Level.info "Файл существует. %s ifexists=%s. Удаляем файл в конечном каталоге"]
              ++ e2 ++ e3)
    else if rule.IfExists = "skip" then
      ((false, fileProcessed), w1,
        e1 ++ [Event.log Level.info "Файл существует. %s ifexists=%s. Пропускаем файл"])
    else
      ((false, fileProcessed), w1,
        e1 ++ [Event.log Level.info "Файл существует. %s Неизвестное значение ifexists=%s. Пропускаем файл"])
  | (.error _, w1, e1) =>
    match transfer env item rule fullDstFilePath fileProcessed w1 with
    | (r, w2, e2) => (r, w2, e1 ++ e2)

/-- One iteration of the loop over the rules in `processItem` (lines 166-235): takes the
flag `fileProcessed`, returns `(fileMoved, fileProcessed)`; `fileMoved` is the `break`. -/
def ruleBody (env : Env) (cfg : Config) (item : processingItem) (rule : CopyRule)
    (fileProcessed : Bool) (w : World) : Res (Bool × Bool) :=
  if !needProcess cfg item rule then
    ((false, fileProcessed), w, [Event.needProcess false, Event.log Level.debug "Пропускаем файл"])
  else
    match getAbsPath env rule.DstDir item.srcFile with
    | .error _ =>
      ((false, fileProcessed), w,
        [Event.needProcess true, Event.log Level.info item.fullSrcFilePath,
         Event.errorln "Ошибка вычисления абсолютного пути"])
    | .ok fullDstFilePath =>
      let fullDstFileDir := env.dir fullDstFilePath
      match osMkdirAll fullDstFileDir w with
      | (some _, w1, e1) =>
        ((false, fileProcessed), w1,
          [Event.needProcess true, Event.log Level.info item.fullSrcFilePath] ++ e1 ++
          [Event.errorln "Ошибка создания каталога-назначения"])
      | (none, w1, e1) =>
        match ifExists env item rule fullDstFilePath fileProcessed w1 with
        | (r, w2, e2) =>
          (r, w2, [Event.needProcess true, Event.log Level.info item.fullSrcFilePath] ++ e1 ++ e2)

/-- An event of the trace of one item: inside the iteration for the rule at position `i`
of `getRuleKeys()` (`some i`), or outside the loop over the rules (`none`). -/
abbrev Tagged := Option Nat × Event

/-- The loop `for _, k := range item.scangroup.getRuleKeys()` of `processItem`, from
position `i` on: returns the final `fileProcessed`. -/
def ruleLoop (env : Env) (cfg : Config) (item : processingItem) :
    List String → Nat → Bool → World → Bool × World × List Tagged
  | [], _, fileProcessed, w => (fileProcessed, w, [])
  | k :: ks, i, fileProcessed, w =>
    match ruleBody env cfg item (item.scangroup.Rules k) fileProcessed w with
    | ((fileMoved, fileProcessed1), w1, e1) =>
      if fileMoved then
        (fileProcessed1, w1, e1.map (fun e => (some i, e)))
      else
        match ruleLoop env cfg item ks (i + 1) fileProcessed1 w1 with
        | (fileProcessed2, w2, e2) => (fileProcessed2, w2, e1.map (fun e => (some i, e)) ++ e2)

/-- What handling one item leaves behind. -/
structure ItemResult where
  world : World
  cache : ProcessingCache
  sent : List processingItem
  trace : List Tagged

/-- The body of `for item := range processingchan` in `processItem`: `cache` is the
package-level `processing`, `sent` what was sent on `savestatchan`. -/
def processItem (env : Env) (cfg : Config) (item : processingItem) (w : World)
    (cache : ProcessingCache) : ItemResult :=
  match ruleLoop env cfg item item.scangroup.getRuleKeys 0 false w with
  | (fileProcessed, w1, e1) =>
    { world := w1
      cache := cache.del item.fullSrcFilePath
      sent := if fileProcessed then [item] else []
      trace := [(none, Event.log Level.debug "Проверяем файл")] ++ e1 ++
        (if fileProcessed then [(none, Event.sendStat item.fullSrcFilePath)] else []) ++
        [(none, Event.cacheDel item.fullSrcFilePath)] }

/-! ## The scan filter -/

/-- An entry of a directory listing (`os.FileInfo`): `Name()`, `Mode().IsRegular()`, `Size()`. -/
structure FileInfo where
  Name : String
  IsRegular : Bool
  Size : Int

/-- The function `processItems`: returns the cache and the items sent on `processingchan`. -/
def processItems (env : Env) (cfg : Config) (fullSrcDir : String) (scangroup : ScanGroup) :
    List FileInfo → ProcessingCache → ProcessingCache × List processingItem
  | [], cache => (cache, [])
  | item :: items, cache =>
    if !item.IsRegular then processItems env cfg fullSrcDir scangroup items cache
    else
      let srcFile := item.Name
      if needExclude cfg srcFile scangroup CopyRule.zero then
        processItems env cfg fullSrcDir scangroup items cache
      else
        let fullSrcFilePath := env.join fullSrcDir srcFile
        if cache.check fullSrcFilePath = true then
          processItems env cfg fullSrcDir scangroup items cache
        else
          match processItems env cfg fullSrcDir scangroup items (cache.add fullSrcFilePath) with
          | (cache1, sent) =>
            (cache1, { srcFile := srcFile, fullSrcFilePath := fullSrcFilePath,
                       scangroup := scangroup, size := item.Size } :: sent)

/-! ## The scan loop -/

/-- Modelled from the spec: the sentinel `errNotModified`, declared outside `gotosser.go`,
the "distinguished unchanged outcome" of a reload. -/
def errNotModified : GoError := GoError.errorString "errNotModified"

/-- The two variables named `cfg`: the package-level one (line 35), read by `needExclude`,
and the parameter of `scanLoop` (line 332), which hides it inside `scanLoop`. -/
structure Vars where
  global : Config
  param : Config

/-- What one pass of `scanLoop` does. -/
structure PassResult where
  vars : Vars
  dispatched : List ScanGroup
  events : List Event
  sleep : Int

/-- One pass of the `for` loop of `scanLoop` (lines 338-363).  Inside `scanLoop` the name
`cfg` is the parameter, so `cfg.ScanGroups`, `cfg = cfgTmp` and `cfg.RescanInterval` read and
write `Vars.param`.  `reload` is the outcome of `reloadConfig(configFileName)`, `initLogger`
the function of that name. -/
def scanLoopPass (reload : Except GoError Config) (initLogger : Config → Option GoError)
    (v : Vars) : PassResult :=
  let dispatched := v.param.ScanGroups.filter (fun scangroup => scangroup.Enabled)
  match reload with
  | .error err =>
    { vars := v, dispatched := dispatched,
      events := if err ≠ errNotModified then [Event.errorln "readconfig:"] else [],
      sleep := v.param.RescanInterval }
  | .ok cfgTmp =>
    match initLogger cfgTmp with
    | some _ =>
      { vars := v, dispatched := dispatched,
        events := [Event.log Level.info "Перезагружаем конфигурационный файл",
                   Event.errorln "Ошибка перезагрузки конфиг-файла"],
        sleep := v.param.RescanInterval }
    | none =>
      { vars := { v with param := cfgTmp }, dispatched := dispatched,
        events := [Event.log Level.info "Перезагружаем конфигурационный файл"],
        sleep := cfgTmp.RescanInterval }

/-! ## Frames -/

/-- Every path except `dst` holds the same file in both worlds. -/
def SameExcept (dst : String) (w w' : World) : Prop := ∀ p, p ≠ dst → w'.fs p = w.fs p

/-! ## Predicates on events and results -/

/-- Events that are not a call of `os.Remove`. -/
def notRemove : Event → Bool
  | .sys Sys.remove _ _ => false
  | _ => true

/-- The calls `copyFile` makes: open, create, copy, close, stat, chmod, nothing else. -/
def copyCall : Event → Bool
  | .sys Sys.open _ _ => true
  | .sys Sys.create _ _ => true
  | .sys Sys.copy _ _ => true
  | .sys Sys.close _ _ => true
  | .sys Sys.stat _ _ => true
  | .sys Sys.chmod _ _ => true
  | _ => false

/-- Events of a removal or of a transfer: every `os`/`io` call other than `os.MkdirAll`
and `os.Stat`, and the returns of `moveFile` and `copyFile`. -/
def isRemovalOrTransfer : Event → Bool
  | .sys Sys.mkdirAll _ _ => false
  | .sys Sys.stat _ _ => false
  | .sys _ _ _ => true
  | .moveFile _ _ _ => true
  | .copyFile _ _ _ => true
  | _ => false

/-- The info-level line logged when the destination exists and `ifexists` is not `replace`. -/
def skipMessage (ifexists : String) : String :=
  if ifexists = "skip" then "Файл существует. %s ifexists=%s. Пропускаем файл"
  else "Файл существует. %s Неизвестное значение ifexists=%s. Пропускаем файл"

/-- Calls of `errorln`/`errorf`. -/
def isErrorln : Event → Bool
  | .errorln _ => true
  | _ => false

/-- The return of a `moveFile` without error. -/
def isMoveOk : Event → Bool
  | .moveFile _ _ none => true
  | _ => false

/-- The return of a `copyFile` without error. -/
def isCopyOk : Event → Bool
  | .copyFile _ _ none => true
  | _ => false

/-- Calls into `os`/`io` and log lines. -/
def isPrim : Event → Bool
  | .sys _ _ _ => true
  | .log _ _ => true
  | _ => false

/-- What the events of one iteration say about its flags: `fileMoved` is set exactly when a
`moveFile` returned without error; `fileProcessed` is its old value or a transfer returned
without error; a successful copy does not set `fileMoved`. -/
structure BodySpec (fp : Bool) (r : Res (Bool × Bool)) : Prop where
  moved : r.1.1 = r.2.2.any isMoveOk
  processed : r.1.2 = (fp || r.2.2.any isMoveOk || r.2.2.any isCopyOk)
  exclusive : r.2.2.any isCopyOk = true → r.2.2.any isMoveOk = false

/-- The entries `processItems` is to submit: regular files that neither the global nor the
group exclusion predicate excludes and whose joined path is not in `cache`. -/
def wanted (env : Env) (cfg : Config) (fullSrcDir : String) (scangroup : ScanGroup)
    (cache : ProcessingCache) (item : FileInfo) : Bool :=
  item.IsRegular && !cfg.matchExclude item.Name && !scangroup.matchExclude item.Name &&
    !cache.check (env.join fullSrcDir item.Name)

/-- The work item built from a directory entry. -/
def toItem (env : Env) (fullSrcDir : String) (scangroup : ScanGroup) (item : FileInfo) :
    processingItem :=
  { srcFile := item.Name, fullSrcFilePath := env.join fullSrcDir item.Name,
    scangroup := scangroup, size := item.Size }

/-! ## Example inputs -/

/-- A world with one source file in which `io.Copy` fails after one byte (`ENOSPC`) and the
close of the destination fails as well (`EDQUOT`). -/
def worldCopyAndCloseFail : World :=
  { fs := fun p => if p = "/in/a.txt" then some ⟨[1, 2, 3], 420⟩ else none
    faults := [none, none, some ⟨Errno.ENOSPC, 1⟩, some ⟨Errno.EDQUOT, 0⟩] }

/-- Volume names of the examples: drive `D:` for the destination, `C:` for the rest. -/
def volOf (p : String) : String := if p = "D:/out/a.txt" then "D:" else "C:"

/-- A world with one source file in which every call succeeds except the `os.Remove`
at the end of a cross-volume move, which is denied (`EACCES`). -/
def worldRemoveDenied : World :=
  { fs := fun p => if p = "C:/in/a.txt" then some ⟨[1, 2, 3], 420⟩ else none
    faults := [none, none, none, none, none, none, none, none, none, some ⟨Errno.EACCES, 0⟩] }

/-- Library functions of the examples: no time placeholders, paths already absolute. -/
def envPlain : Env :=
  { strftime := fun d => d
    join := fun d f => d ++ "/" ++ f
    abs := fun p => Except.ok p
    dir := fun _ => "/out"
    volumeName := fun _ => "" }

/-- A rule that matches every file and sends it to `/out`. -/
def ruleTo (mode ifexists : String) : CopyRule :=
  { Mode := mode, DstDir := "/out", IfExists := ifexists,
    match_ := fun _ => (true, none), matchExclude := fun _ => false }

/-- A scan group with the single rule `r1`. -/
def groupOne (rule : CopyRule) : ScanGroup :=
  { SrcDirs := ["/in"], Enabled := true, CreateSrc := false,
    Rules := fun _ => rule, getRuleKeys := ["r1"], matchExclude := fun _ => false }

/-- A configuration without global exclusions. -/
def cfgPlain : Config :=
  { ScanGroups := [], RescanInterval := 10, MaxCopyThreads := 1, matchExclude := fun _ => false }

/-- The item for `/in/a.txt` in a group with the single rule `rule`. -/
def itemA (rule : CopyRule) : processingItem :=
  { srcFile := "a.txt", fullSrcFilePath := "/in/a.txt", scangroup := groupOne rule, size := 3 }

/-- The source `/in/a.txt` and an older `/out/a.txt`, with the given faults. -/
def worldBoth (faults : List (Option Fault)) : World :=
  { fs := fun p => if p = "/in/a.txt" then some ⟨[1, 2, 3], 420⟩
          else if p = "/out/a.txt" then some ⟨[9], 384⟩ else none
    faults := faults }

/-- A scan group with the rules `a` (copy to `/out`) and `b` (move to `/arch`). -/
def groupCopyMove : ScanGroup :=
  { SrcDirs := ["/in"], Enabled := true, CreateSrc := false,
    Rules := fun k => if k = "a" then ruleTo "copy" "skip"
      else { ruleTo "move" "skip" with DstDir := "/arch" },
    getRuleKeys := ["a", "b"], matchExclude := fun _ => false }

/-- The item for `/in/a.txt` in `groupCopyMove`. -/
def itemCopyMove : processingItem :=
  { srcFile := "a.txt", fullSrcFilePath := "/in/a.txt", scangroup := groupCopyMove, size := 3 }

/-- Only the source `/in/a.txt` exists. -/
def worldSrc (faults : List (Option Fault)) : World :=
  { fs := fun p => if p = "/in/a.txt" then some ⟨[1, 2, 3], 420⟩ else none
    faults := faults }

/-- A configuration whose global exclusion list holds `b.tmp`. -/
def cfgNoTmp : Config :=
  { ScanGroups := [], RescanInterval := 10, MaxCopyThreads := 1,
    matchExclude := fun f => decide (f = "b.tmp") }

/-- A listing of `/in`: a file, a directory, an excluded file, a file already in the cache. -/
def listingIn : List FileInfo :=
  [{ Name := "a.txt", IsRegular := true, Size := 3 },
   { Name := "sub", IsRegular := false, Size := 0 },
   { Name := "b.tmp", IsRegular := true, Size := 1 },
   { Name := "c.txt", IsRegular := true, Size := 7 }]

/-- The configuration loaded at startup: one enabled group, rescan every 10 seconds, no
global exclusions. -/
def cfgStart : Config :=
  { ScanGroups := [groupOne (ruleTo "move" "skip")], RescanInterval := 10, MaxCopyThreads := 1,
    matchExclude := fun _ => false }

/-- The configuration found on reload: two groups, rescan every 60 seconds, `b.tmp`
excluded globally. -/
def cfgReloaded : Config :=
  { ScanGroups := [groupOne (ruleTo "copy" "skip"), groupCopyMove], RescanInterval := 60,
    MaxCopyThreads := 1, matchExclude := fun f => decide (f = "b.tmp") }

/-- The variables after the first pass of `scanLoop`, started from `cfgStart`, in which
`reloadConfig` returned `cfgReloaded` and `initLogger` succeeded. -/
def varsAfterReload : Vars :=
  (scanLoopPass (Except.ok cfgReloaded) (fun _ => none)
    { global := cfgStart, param := cfgStart }).vars

/-! ## Frame lemmas for the primitives -/

theorem SameExcept.refl (dst : String) (w : World) : SameExcept dst w w := fun _ _ => rfl

theorem SameExcept.trans {dst : String} {a b c : World} (h1 : SameExcept dst a b)
    (h2 : SameExcept dst b c) : SameExcept dst a c :=
  fun p hp => (h2 p hp).trans (h1 p hp)

@[simp] theorem next_fs (w : World) : w.next.2.fs = w.fs := rfl

@[simp] theorem set_fs_same (w : World) (p : String) (f : Option File) : (w.set p f).fs p = f := by
  simp [World.set]

theorem set_fs_other (w : World) {p q : String} (f : Option File) (h : q ≠ p) :
    (w.set p f).fs q = w.fs q := by
  simp [World.set, h]

theorem probe_fs (op : Sys) (name path : String) (w : World) :
    (probe op name path w).2.1.fs = w.fs := by
  unfold probe
  rcases h : w.next with ⟨_ | f, w1⟩ <;> have h1 : w1.fs = w.fs := by rw [← next_fs w, h]
  · cases h2 : w1.fs path <;> simp [h2, h1]
  · simp [h1]

theorem osStat_fs (path : String) (w : World) : (osStat path w).2.1.fs = w.fs := by
  unfold osStat
  rcases h : w.next with ⟨_ | f, w1⟩ <;> have h1 : w1.fs = w.fs := by rw [← next_fs w, h]
  · cases h2 : w1.fs path <;> simp [h2, h1]
  · simp [h1]

theorem fileClose_fs (path : String) (w : World) : (fileClose path w).2.1.fs = w.fs := by
  unfold fileClose
  rcases h : w.next with ⟨_ | f, w1⟩ <;> have h1 : w1.fs = w.fs := by rw [← next_fs w, h]
  · simp [h1]
  · simp [h1]

theorem osMkdirAll_fs (path : String) (w : World) : (osMkdirAll path w).2.1.fs = w.fs := by
  unfold osMkdirAll
  rcases h : w.next with ⟨_ | f, w1⟩ <;> have h1 : w1.fs = w.fs := by rw [← next_fs w, h]
  · simp [h1]
  · simp [h1]

theorem next_nil (fs : String → Option File) :
    World.next ⟨fs, []⟩ = (none, ⟨fs, []⟩) := rfl

theorem next_cons (fs : String → Option File) (a : Option Fault) (t : List (Option Fault)) :
    World.next ⟨fs, a :: t⟩ = (a, ⟨fs, t⟩) := by
  cases a <;> rfl

theorem osOpen_ok {p : String} {w w1 : World} {e : List Event} (h : osOpen p w = (none, w1, e)) :
    (∃ f, w.fs p = some f) ∧ w1.fs = w.fs := by
  have hfs := probe_fs Sys.open "open" p w
  unfold osOpen at h
  rw [h] at hfs
  refine ⟨?_, hfs⟩
  unfold probe at h
  rcases hn : w.next with ⟨_ | f, w2⟩ <;> have h1 : w2.fs = w.fs := by rw [← next_fs w, hn]
  · rw [hn] at h
    cases h2 : w2.fs p with
    | none => simp [h2] at h
    | some f => exact ⟨f, by rw [← h1, h2]⟩
  · rw [hn] at h; simp at h

theorem osStat_ok {p : String} {w w1 : World} {f : File} {e : List Event}
    (h : osStat p w = (.ok f, w1, e)) : w.fs p = some f ∧ w1.fs = w.fs := by
  have hfs := osStat_fs p w
  rw [h] at hfs
  refine ⟨?_, hfs⟩
  unfold osStat at h
  rcases hn : w.next with ⟨_ | k, w2⟩ <;> have h1 : w2.fs = w.fs := by rw [← next_fs w, hn]
  · rw [hn] at h
    cases h2 : w2.fs p with
    | none => simp [h2] at h
    | some g =>
      simp [h2] at h
      rw [← h1, h2, h.1]
  · rw [hn] at h; simp at h

theorem osCreate_frame (dst : String) (w : World) : SameExcept dst w (osCreate dst w).2.1 := by
  intro p hp
  rcases w with ⟨fs, _ | ⟨_ | a, t⟩⟩ <;> simp [osCreate, next_nil, next_cons, World.set, hp]

theorem osCreate_ok {dst : String} {w w1 : World} {e : List Event}
    (h : osCreate dst w = (none, w1, e)) : ∃ m, w1.fs dst = some ⟨[], m⟩ := by
  rcases w with ⟨fs, _ | ⟨_ | a, t⟩⟩ <;> simp [osCreate, next_nil, next_cons] at h
  · obtain ⟨rfl, -⟩ := h
    exact ⟨_, set_fs_same _ _ _⟩
  · obtain ⟨rfl, -⟩ := h
    exact ⟨_, set_fs_same _ _ _⟩

theorem ioCopy_frame (dst src : String) (w : World) : SameExcept dst w (ioCopy dst src w).2.1 := by
  intro p hp
  rcases w with ⟨fs, _ | ⟨_ | a, t⟩⟩ <;> simp only [ioCopy, next_nil, next_cons, World.write] <;>
    split <;> simp [World.set, hp]

theorem ioCopy_ok {dst src : String} {w w1 : World} {e : List Event} {d s : File}
    (h : ioCopy dst src w = (none, w1, e)) (hd : w.fs dst = some d) (hs : w.fs src = some s) :
    w1.fs dst = some { d with content := s.content } := by
  rcases w with ⟨fs, _ | ⟨_ | a, t⟩⟩ <;> simp [ioCopy, next_nil, next_cons] at h
  all_goals
    simp only at hd hs
    rw [← h.1]
    simp [World.write, World.bytes, hd, hs]

theorem osChmod_frame (dst : String) (m : Nat) (w : World) :
    SameExcept dst w (osChmod dst m w).2.1 := by
  intro p hp
  rcases w with ⟨fs, _ | ⟨_ | a, t⟩⟩ <;> simp only [osChmod, next_nil, next_cons] <;>
    first | rfl | (split <;> simp [World.set, hp])

theorem osChmod_ok {dst : String} {m : Nat} {w w1 : World} {e : List Event}
    (h : osChmod dst m w = (none, w1, e)) :
    ∃ d, w.fs dst = some d ∧ w1.fs dst = some { d with mode := m } := by
  rcases w with ⟨fs, _ | ⟨_ | a, t⟩⟩ <;> simp only [osChmod, next_nil, next_cons] at h
  · cases hd : fs dst with
    | none => simp [hd] at h
    | some d =>
      simp [hd] at h
      exact ⟨d, hd, by rw [← h.1]; simp⟩
  · cases hd : fs dst with
    | none => simp [hd] at h
    | some d =>
      simp [hd] at h
      exact ⟨d, hd, by rw [← h.1]; simp⟩
  · simp at h

theorem SameExcept.of_fs_eq {dst : String} {w w1 : World} (h : w1.fs = w.fs) :
    SameExcept dst w w1 := fun p _ => by rw [h]

theorem fileClose_frame (dst path : String) (w : World) :
    SameExcept dst w (fileClose path w).2.1 := SameExcept.of_fs_eq (fileClose_fs path w)

theorem copyPerm_frame (src dst : String) (w : World) :
    SameExcept dst w (copyPerm src dst w).2.1 := by
  unfold copyPerm
  rcases h1 : osStat src w with ⟨r1, w1, e1⟩
  have f1 : w1.fs = w.fs := by have := osStat_fs src w; rwa [h1] at this
  cases r1 with
  | error err => exact SameExcept.of_fs_eq f1
  | ok info =>
    simp only
    rcases h2 : osChmod dst info.mode w1 with ⟨r2, w2, e2⟩
    have f2 := osChmod_frame dst info.mode w1
    rw [h2] at f2
    exact (SameExcept.of_fs_eq f1).trans f2

theorem copyBody_frame (src dst : String) (w : World) :
    SameExcept dst w (copyBody src dst w).2.1 := by
  unfold copyBody
  rcases h1 : osCreate dst w with ⟨r1, w1, e1⟩
  have f1 := osCreate_frame dst w
  rw [h1] at f1
  cases r1 with
  | some err => exact f1
  | none =>
    simp only
    rcases h2 : ioCopy dst src w1 with ⟨r2, w2, e2⟩
    have f2 := ioCopy_frame dst src w1
    rw [h2] at f2
    rcases h3 : fileClose dst w2 with ⟨r3, w3, e3⟩
    have f3 := fileClose_frame dst dst w2
    rw [h3] at f3
    simp only
    split
    · exact (f1.trans f2).trans f3
    · rcases h4 : copyPerm src dst w3 with ⟨r4, w4, e4⟩
      have f4 := copyPerm_frame src dst w3
      rw [h4] at f4
      exact ((f1.trans f2).trans f3).trans f4

theorem copyFile_frame (src dst : String) (w : World) :
    SameExcept dst w (copyFile src dst w).2.1 := by
  unfold copyFile
  rcases h1 : osOpen src w with ⟨r1, w1, e1⟩
  have f1 : w1.fs = w.fs := by have := probe_fs Sys.open "open" src w; unfold osOpen at h1; rwa [h1] at this
  cases r1 with
  | some err => exact SameExcept.of_fs_eq f1
  | none =>
    simp only [deferClose]
    have f2 := copyBody_frame src dst w1
    have f3 := fileClose_frame dst src (copyBody src dst w1).2.1
    exact ((SameExcept.of_fs_eq f1).trans f2).trans f3

theorem copyPerm_ok {src dst : String} {w : World} {d : File}
    (h : (copyPerm src dst w).1 = none) (hd : w.fs dst = some d) :
    ∃ s, w.fs src = some s ∧ (copyPerm src dst w).2.1.fs dst = some { d with mode := s.mode } := by
  unfold copyPerm at h ⊢
  rcases h1 : osStat src w with ⟨r1, w1, e1⟩
  rw [h1] at h
  cases r1 with
  | error err => simp at h
  | ok info =>
    obtain ⟨hs, f1⟩ := osStat_ok h1
    simp only at h ⊢
    rcases h2 : osChmod dst info.mode w1 with ⟨r2, w2, e2⟩
    rw [h2] at h
    simp only at h
    subst h
    obtain ⟨d2, hd2, hw2⟩ := osChmod_ok h2
    rw [f1, hd] at hd2
    cases hd2
    exact ⟨info, hs, hw2⟩

theorem copyBody_ok {src dst : String} {w : World} {s : File}
    (h : (copyBody src dst w).1 = none) (hne : src ≠ dst) (hs : w.fs src = some s) :
    (copyBody src dst w).2.1.fs dst = some s := by
  unfold copyBody at h ⊢
  rcases h1 : osCreate dst w with ⟨r1, w1, e1⟩
  rw [h1] at h
  cases r1 with
  | some err => simp at h
  | none =>
    have f1 := osCreate_frame dst w
    rw [h1] at f1
    obtain ⟨m, hd1⟩ := osCreate_ok h1
    have hs1 : w1.fs src = some s := by rw [f1 src hne, hs]
    simp only at h ⊢
    rcases h2 : ioCopy dst src w1 with ⟨r2, w2, e2⟩
    rw [h2] at h
    have f2 := ioCopy_frame dst src w1
    rw [h2] at f2
    have hs2 : w2.fs src = some s := by rw [f2 src hne, hs1]
    rcases h3 : fileClose dst w2 with ⟨r3, w3, e3⟩
    rw [h3] at h
    have f3 : w3.fs = w2.fs := by have := fileClose_fs dst w2; rwa [h3] at this
    simp only at h ⊢
    cases r2 with
    | some err => simp at h
    | none =>
      cases r3 with
      | some err => simp at h
      | none =>
        simp only [if_true] at h ⊢
        have hd2 := ioCopy_ok h2 hd1 hs1
        have hd3 : w3.fs dst = some { content := s.content, mode := m } := by rw [f3, hd2]
        obtain ⟨s4, hs4, hd4⟩ := copyPerm_ok h hd3
        rw [f3, hs2] at hs4
        cases hs4
        rw [hd4]

theorem copyFile_ok {src dst : String} {w : World}
    (h : (copyFile src dst w).1 = none) (hne : src ≠ dst) :
    ∃ s, w.fs src = some s ∧ (copyFile src dst w).2.1.fs dst = some s := by
  unfold copyFile at h ⊢
  rcases h1 : osOpen src w with ⟨r1, w1, e1⟩
  rw [h1] at h
  cases r1 with
  | some err => simp at h
  | none =>
    obtain ⟨⟨s, hs⟩, f1⟩ := osOpen_ok h1
    simp only [deferClose] at h ⊢
    refine ⟨s, hs, ?_⟩
    rw [fileClose_fs]
    exact copyBody_ok h hne (by rw [f1, hs])

/-! ## copyFile: which error is returned -/

/-- C7, as stated, fails: when `io.Copy` and the close of `dst` both fail, the close of
`dst` is seen to fail with `EDQUOT`, yet `copyFile` returns the error of `io.Copy`, not the
close-time error. -/
theorem copyFile_close_error_masked :
    Event.sys Sys.close "/out/a.txt" (some (GoError.pathError "close" "/out/a.txt" Errno.EDQUOT))
        ∈ (copyFile "/in/a.txt" "/out/a.txt" worldCopyAndCloseFail).2.2 ∧
      (copyFile "/in/a.txt" "/out/a.txt" worldCopyAndCloseFail).1
        = some (GoError.pathError "write" "/out/a.txt" Errno.ENOSPC) ∧
      (copyFile "/in/a.txt" "/out/a.txt" worldCopyAndCloseFail).1
        ≠ some (GoError.pathError "close" "/out/a.txt" Errno.EDQUOT) := by
  decide

/-- C7, amended: in every run of `copyFile` that gets as far as closing `dst` (the source
exists, `os.Open` and `os.Create` succeed) and in which that close fails, `copyFile` returns
the close-time error when `io.Copy` succeeded, and the error of `io.Copy` when `io.Copy`
failed: the copy error takes precedence, the close error is used only if there is none. -/
theorem copyFile_close_error (src dst : String) (w : World) (f : File) (c : Option Fault)
    (k : Fault) (rest : List (Option Fault)) (hsrc : w.fs src = some f)
    (hfaults : w.faults = none :: none :: c :: some k :: rest) :
    (copyFile src dst w).1 =
      match c with
      | none => some (GoError.pathError "close" dst k.errno)
      | some kc => some (GoError.pathError "write" dst kc.errno) := by
  rcases w with ⟨fs, faults⟩
  simp only at hsrc hfaults
  subst hfaults
  cases c <;>
    simp [copyFile, deferClose, copyBody, osOpen, probe, osCreate, ioCopy, fileClose,
      next_cons, hsrc, World.set, World.write]

/-- Witness for `copyFile_close_error`: when only the close fails (`EDQUOT`) its error is
returned; when the copy fails too (`ENOSPC`) the copy error is returned. -/
theorem copyFile_close_error_witness :
    (copyFile "/in/a.txt" "/out/a.txt"
        { worldCopyAndCloseFail with faults := [none, none, none, some ⟨Errno.EDQUOT, 0⟩] }).1
        = some (GoError.pathError "close" "/out/a.txt" Errno.EDQUOT) ∧
      (copyFile "/in/a.txt" "/out/a.txt" worldCopyAndCloseFail).1
        = some (GoError.pathError "write" "/out/a.txt" Errno.ENOSPC) :=
  ⟨copyFile_close_error "/in/a.txt" "/out/a.txt"
      { worldCopyAndCloseFail with faults := [none, none, none, some ⟨Errno.EDQUOT, 0⟩] }
      ⟨[1, 2, 3], 420⟩ none ⟨Errno.EDQUOT, 0⟩ [] (by decide) rfl,
   copyFile_close_error "/in/a.txt" "/out/a.txt" worldCopyAndCloseFail ⟨[1, 2, 3], 420⟩
      (some ⟨Errno.ENOSPC, 1⟩) ⟨Errno.EDQUOT, 0⟩ [] (by decide) rfl⟩

/-! ## moveFile -/

theorem probe_events (op : Sys) (name path : String) (w : World) :
    ∃ r, (probe op name path w).2.2 = [Event.sys op path r] := by
  rcases w with ⟨fs, _ | ⟨_ | a, t⟩⟩ <;> simp only [probe, next_nil, next_cons] <;>
    first | exact ⟨_, rfl⟩ | (split <;> exact ⟨_, rfl⟩)

theorem fileClose_events (path : String) (w : World) :
    ∃ r, (fileClose path w).2.2 = [Event.sys Sys.close path r] := by
  rcases w with ⟨fs, _ | ⟨_ | a, t⟩⟩ <;> simp only [fileClose, next_nil, next_cons] <;>
    exact ⟨_, rfl⟩

theorem osStat_events (path : String) (w : World) :
    ∃ r, (osStat path w).2.2 = [Event.sys Sys.stat path r] := by
  rcases w with ⟨fs, _ | ⟨_ | a, t⟩⟩ <;> simp only [osStat, next_nil, next_cons] <;>
    first | exact ⟨_, rfl⟩ | (split <;> exact ⟨_, rfl⟩)

theorem osCreate_events (path : String) (w : World) :
    ∃ r, (osCreate path w).2.2 = [Event.sys Sys.create path r] := by
  rcases w with ⟨fs, _ | ⟨_ | a, t⟩⟩ <;> simp only [osCreate, next_nil, next_cons] <;>
    exact ⟨_, rfl⟩

theorem ioCopy_events (dst src : String) (w : World) :
    ∃ r, (ioCopy dst src w).2.2 = [Event.sys Sys.copy dst r] := by
  rcases w with ⟨fs, _ | ⟨_ | a, t⟩⟩ <;> simp only [ioCopy, next_nil, next_cons] <;>
    exact ⟨_, rfl⟩

theorem osChmod_events (path : String) (m : Nat) (w : World) :
    ∃ r, (osChmod path m w).2.2 = [Event.sys Sys.chmod path r] := by
  rcases w with ⟨fs, _ | ⟨_ | a, t⟩⟩ <;> simp only [osChmod, next_nil, next_cons] <;>
    first | exact ⟨_, rfl⟩ | (split <;> exact ⟨_, rfl⟩)

theorem osRemove_events (path : String) (w : World) :
    ∃ r, (osRemove path w).2.2 = [Event.sys Sys.remove path r] := by
  rcases w with ⟨fs, _ | ⟨_ | a, t⟩⟩ <;> simp only [osRemove, next_nil, next_cons] <;>
    first | exact ⟨_, rfl⟩ | (split <;> exact ⟨_, rfl⟩)

theorem osRename_events (src dst : String) (w : World) :
    ∃ r, (osRename src dst w).2.2 = [Event.sys Sys.rename src r] := by
  rcases w with ⟨fs, _ | ⟨_ | a, t⟩⟩ <;> simp only [osRename, next_nil, next_cons] <;>
    first | exact ⟨_, rfl⟩ | (split <;> exact ⟨_, rfl⟩)

theorem osMkdirAll_events (path : String) (w : World) :
    ∃ r, (osMkdirAll path w).2.2 = [Event.sys Sys.mkdirAll path r] := by
  rcases w with ⟨fs, _ | ⟨_ | a, t⟩⟩ <;> simp only [osMkdirAll, next_nil, next_cons] <;>
    exact ⟨_, rfl⟩

theorem copyPerm_events (src dst : String) (w : World) :
    ∀ e ∈ (copyPerm src dst w).2.2, copyCall e = true := by
  unfold copyPerm
  rcases h1 : osStat src w with ⟨r1, w1, e1⟩
  obtain ⟨x1, hx1⟩ := osStat_events src w
  rw [h1] at hx1
  simp only at hx1
  subst hx1
  cases r1 with
  | error err => simp [copyCall]
  | ok info =>
    simp only
    rcases h2 : osChmod dst info.mode w1 with ⟨r2, w2, e2⟩
    obtain ⟨x2, hx2⟩ := osChmod_events dst info.mode w1
    rw [h2] at hx2
    simp only at hx2
    subst hx2
    simp [copyCall]

theorem copyBody_events (src dst : String) (w : World) :
    ∀ e ∈ (copyBody src dst w).2.2, copyCall e = true := by
  unfold copyBody
  rcases h1 : osCreate dst w with ⟨r1, w1, e1⟩
  obtain ⟨x1, hx1⟩ := osCreate_events dst w
  rw [h1] at hx1
  simp only at hx1
  subst hx1
  cases r1 with
  | some err => simp [copyCall]
  | none =>
    simp only
    rcases h2 : ioCopy dst src w1 with ⟨r2, w2, e2⟩
    obtain ⟨x2, hx2⟩ := ioCopy_events dst src w1
    rw [h2] at hx2
    simp only at hx2
    subst hx2
    rcases h3 : fileClose dst w2 with ⟨r3, w3, e3⟩
    obtain ⟨x3, hx3⟩ := fileClose_events dst w2
    rw [h3] at hx3
    simp only at hx3
    subst hx3
    simp only
    split
    · simp [copyCall]
    · have h4 := copyPerm_events src dst w3
      intro e he
      simp only [List.mem_append, List.mem_cons, List.not_mem_nil, or_false] at he
      casesm* _ ∨ _
      all_goals first | (subst_vars; rfl) | exact h4 e ‹_›

theorem copyFile_events (src dst : String) (w : World) :
    ∀ e ∈ (copyFile src dst w).2.2, copyCall e = true := by
  unfold copyFile
  rcases h1 : osOpen src w with ⟨r1, w1, e1⟩
  obtain ⟨x1, hx1⟩ := probe_events Sys.open "open" src w
  unfold osOpen at h1
  rw [h1] at hx1
  simp only at hx1
  subst hx1
  cases r1 with
  | some err => simp [copyCall]
  | none =>
    simp only [deferClose]
    obtain ⟨x2, hx2⟩ := fileClose_events src (copyBody src dst w1).2.1
    rw [hx2]
    have h3 := copyBody_events src dst w1
    intro e he
    simp only [List.mem_append, List.mem_cons, List.not_mem_nil, or_false] at he
    casesm* _ ∨ _
    all_goals first | (subst_vars; rfl) | exact h3 e ‹_›

theorem copyCall_notRemove {e : Event} (h : copyCall e = true) : notRemove e = true := by
  cases e with
  | sys op p r => cases op <;> simp_all [copyCall, notRemove]
  | _ => rfl

theorem osRemove_frame (path : String) (w : World) : SameExcept path w (osRemove path w).2.1 := by
  intro p hp
  rcases w with ⟨fs, _ | ⟨_ | a, t⟩⟩ <;> simp only [osRemove, next_nil, next_cons] <;>
    first | rfl | (split <;> simp [World.set, hp])

theorem osRemove_err {path : String} {w w1 : World} {err : GoError} {e : List Event}
    (h : osRemove path w = (some err, w1, e)) : w1.fs = w.fs := by
  rcases w with ⟨fs, _ | ⟨_ | a, t⟩⟩ <;> simp only [osRemove, next_nil, next_cons] at h
  · split at h <;> simp at h
    rw [← h.2.1]
  · split at h <;> simp at h
    rw [← h.2.1]
  · simp at h
    rw [← h.2.1]

theorem osRemove_ok {path : String} {w w1 : World} {e : List Event}
    (h : osRemove path w = (none, w1, e)) : w1.fs path = none := by
  rcases w with ⟨fs, _ | ⟨_ | a, t⟩⟩ <;> simp only [osRemove, next_nil, next_cons] at h
  · split at h <;> simp at h
    rw [← h.1, set_fs_same]
  · split at h <;> simp at h
    rw [← h.1, set_fs_same]
  · simp at h

/-- C6: `moveFile` between different volumes.  With `r1`..`r4` the outcomes of the four
steps (read-write open of `src`, its close, `copyFile(src, dst)`, `os.Remove(src)`), each run
on the world the step before left: `moveFile` returns no error exactly when the first three
succeed and the removal succeeds or fails with a not-exist error; when the removal fails
with another error `moveFile` returns an error and `dst` still holds the copy of the source;
when the access check or the copy fails, `src` is unchanged and `os.Remove` is never called. -/
theorem moveFile_cross_volume (volumeName : String → String) (src dst : String) (w : World)
    (hvol : volumeName src ≠ volumeName dst)
    (r1 r2 r3 r4 : Option GoError) (w1 w2 w3 w4 : World) (e1 e2 e3 e4 : List Event)
    (h1 : osOpenFile src w = (r1, w1, e1)) (h2 : fileClose src w1 = (r2, w2, e2))
    (h3 : copyFile src dst w2 = (r3, w3, e3)) (h4 : osRemove src w3 = (r4, w4, e4)) :
    ((moveFile volumeName src dst w).1 = none ↔
        r1 = none ∧ r2 = none ∧ r3 = none ∧
          (r4 = none ∨ ∃ err, r4 = some err ∧ isNotExist err = true)) ∧
      (r1 = none → r2 = none → r3 = none → ∀ err, r4 = some err → isNotExist err = false →
        (moveFile volumeName src dst w).1 =
            some (GoError.errorf "Файл перемещён. Но удалить его не получилось. %v" err) ∧
          ∃ f, w.fs src = some f ∧ (moveFile volumeName src dst w).2.1.fs dst = some f) ∧
      (¬(r1 = none ∧ r2 = none ∧ r3 = none) →
        (moveFile volumeName src dst w).2.1.fs src = w.fs src ∧
          ∀ e ∈ (moveFile volumeName src dst w).2.2, notRemove e = true) := by
  have hne : src ≠ dst := fun h => hvol (by rw [h])
  have f1 : w1.fs = w.fs := by
    have := probe_fs Sys.openFile "open" src w
    unfold osOpenFile at h1
    rwa [h1] at this
  have f2 : w2.fs = w1.fs := by have := fileClose_fs src w1; rwa [h2] at this
  have f3 : SameExcept dst w2 w3 := by have := copyFile_frame src dst w2; rwa [h3] at this
  have ev1 : ∀ e ∈ e1, notRemove e = true := by
    obtain ⟨x, hx⟩ := probe_events Sys.openFile "open" src w
    unfold osOpenFile at h1
    rw [h1] at hx
    simp only at hx
    subst hx
    simp [notRemove]
  have ev2 : ∀ e ∈ e2, notRemove e = true := by
    obtain ⟨x, hx⟩ := fileClose_events src w1
    rw [h2] at hx
    simp only at hx
    subst hx
    simp [notRemove]
  have ev3 : ∀ e ∈ e3, notRemove e = true := by
    have := copyFile_events src dst w2
    rw [h3] at this
    exact fun e he => copyCall_notRemove (this e he)
  unfold moveFile
  rw [if_neg hvol, h1]
  cases r1 with
  | some err1 => simp [f1]; exact ev1
  | none =>
    simp only [h2]
    cases r2 with
    | some err2 =>
      simp [f1, f2]
      intro e he
      rcases he with he | he
      · exact ev1 e he
      · exact ev2 e he
    | none =>
      simp only [h3]
      cases r3 with
      | some err3 =>
        simp [f3 src hne, f1, f2]
        intro e he
        rcases he with he | he | he
        · exact ev1 e he
        · exact ev2 e he
        · exact ev3 e he
      | none =>
        simp only [h4]
        cases r4 with
        | none => simp
        | some err4 =>
          have f4 := osRemove_err h4
          have hc : (copyFile src dst w2).1 = none := by rw [h3]
          obtain ⟨f, hs, hd⟩ := copyFile_ok hc hne
          rw [h3] at hd
          simp only at hd
          rw [f2, f1] at hs
          cases hx : isNotExist err4 <;> simp [hx, f4, hs, hd]

/-- Witness for `moveFile_cross_volume`: the removal is denied, `moveFile` reports it and
the destination keeps the copy. -/
theorem moveFile_cross_volume_witness :
    (moveFile volOf "C:/in/a.txt" "D:/out/a.txt" worldRemoveDenied).1 =
        some (GoError.errorf "Файл перемещён. Но удалить его не получилось. %v"
          (GoError.pathError "remove" "C:/in/a.txt" Errno.EACCES)) ∧
      ∃ f, worldRemoveDenied.fs "C:/in/a.txt" = some f ∧
        (moveFile volOf "C:/in/a.txt" "D:/out/a.txt" worldRemoveDenied).2.1.fs "D:/out/a.txt"
          = some f :=
  (moveFile_cross_volume volOf "C:/in/a.txt" "D:/out/a.txt" worldRemoveDenied (by decide)
    none none none (some (GoError.pathError "remove" "C:/in/a.txt" Errno.EACCES))
    _ _ _ _ _ _ _ _ rfl rfl rfl rfl).2.1 rfl rfl rfl _ rfl rfl

theorem osRename_ok {src dst : String} {w w1 : World} {e : List Event}
    (h : osRename src dst w = (none, w1, e)) :
    ∃ f, w.fs src = some f ∧ w1.fs dst = some f := by
  rcases w with ⟨fs, _ | ⟨_ | a, t⟩⟩ <;> simp only [osRename, next_nil, next_cons] at h
  · cases hs : fs src with
    | none => simp [hs] at h
    | some f =>
      simp [hs] at h
      exact ⟨f, hs, by rw [← h.1, set_fs_same]⟩
  · cases hs : fs src with
    | none => simp [hs] at h
    | some f =>
      simp [hs] at h
      exact ⟨f, hs, by rw [← h.1, set_fs_same]⟩
  · simp at h

theorem moveFile_ok {volumeName : String → String} {src dst : String} {w : World}
    (h : (moveFile volumeName src dst w).1 = none) :
    ∃ f, w.fs src = some f ∧ (moveFile volumeName src dst w).2.1.fs dst = some f := by
  unfold moveFile at h ⊢
  by_cases hvol : volumeName src = volumeName dst
  · rw [if_pos hvol] at h ⊢
    rcases h1 : osRename src dst w with ⟨r1, w1, e1⟩
    rw [h1] at h
    cases r1 with
    | some err => simp at h
    | none => exact osRename_ok h1
  · have hne : src ≠ dst := fun h => hvol (by rw [h])
    rw [if_neg hvol] at h ⊢
    rcases h1 : osOpenFile src w with ⟨r1, w1, e1⟩
    rw [h1] at h
    have f1 : w1.fs = w.fs := by
      have := probe_fs Sys.openFile "open" src w
      unfold osOpenFile at h1
      rwa [h1] at this
    cases r1 with
    | some err => simp at h
    | none =>
      simp only at h ⊢
      rcases h2 : fileClose src w1 with ⟨r2, w2, e2⟩
      rw [h2] at h
      have f2 : w2.fs = w1.fs := by have := fileClose_fs src w1; rwa [h2] at this
      cases r2 with
      | some err => simp at h
      | none =>
        simp only at h ⊢
        rcases h3 : copyFile src dst w2 with ⟨r3, w3, e3⟩
        rw [h3] at h
        cases r3 with
        | some err => simp at h
        | none =>
          have hc : (copyFile src dst w2).1 = none := by rw [h3]
          obtain ⟨f, hs, hd⟩ := copyFile_ok hc hne
          rw [h3] at hd
          simp only at hd
          rw [f2, f1] at hs
          simp only at h ⊢
          rcases h4 : osRemove src w3 with ⟨r4, w4, e4⟩
          rw [h4] at h
          have f4 : SameExcept src w3 w4 := by have := osRemove_frame src w3; rwa [h4] at this
          have hd4 : w4.fs dst = some f := by rw [f4 dst (Ne.symm hne), hd]
          refine ⟨f, hs, ?_⟩
          cases r4 with
          | none => exact hd4
          | some err => cases hx : isNotExist err <;> simp [hx, hd4]

/-! ## Existing destination: `replace` -/

theorem copyFile_src_exists {src dst : String} {w : World}
    (h : (copyFile src dst w).1 = none) : ∃ f, w.fs src = some f := by
  unfold copyFile at h
  rcases h1 : osOpen src w with ⟨r1, w1, e1⟩
  rw [h1] at h
  cases r1 with
  | some err => simp at h
  | none => exact (osOpen_ok h1).1

/-- After a successful transfer in mode `move` or `copy`, the destination holds the file
the source held before. -/
theorem transfer_ok {env : Env} {item : processingItem} {rule : CopyRule} {dst : String}
    {w : World} (fp : Bool)
    (htr : (rule.Mode = "move" ∧ (moveFile env.volumeName item.fullSrcFilePath dst w).1 = none) ∨
      (rule.Mode = "copy" ∧ rule.Mode ≠ "move" ∧ (copyFile item.fullSrcFilePath dst w).1 = none))
    (hne : item.fullSrcFilePath ≠ dst) :
    ∃ f, w.fs item.fullSrcFilePath = some f ∧
      (transfer env item rule dst fp w).2.1.fs dst = some f := by
  unfold transfer
  rcases htr with ⟨hm, hok⟩ | ⟨hc, hm, hok⟩
  · rw [if_pos hm]
    obtain ⟨f, hs, hd⟩ := moveFile_ok hok
    refine ⟨f, hs, ?_⟩
    rcases h1 : moveFile env.volumeName item.fullSrcFilePath dst w with ⟨r1, w1, e1⟩
    rw [h1] at hok hd
    simp only at hok
    subst hok
    exact hd
  · rw [if_neg hm, if_pos hc]
    obtain ⟨f, hs, hd⟩ := copyFile_ok hok hne
    refine ⟨f, hs, ?_⟩
    rcases h1 : copyFile item.fullSrcFilePath dst w with ⟨r1, w1, e1⟩
    rw [h1] at hok hd
    simp only at hok
    subst hok
    exact hd

/-- C2, as stated, fails: the rule has `ifexists=replace`, passes `needProcess`, and
`/out/a.txt` exists, but `os.Remove` of the destination is denied; after `processItem` the
destination still holds the old file, not the source file. -/
theorem replace_keeps_old_when_remove_fails :
    needProcess cfgPlain (itemA (ruleTo "move" "replace")) (ruleTo "move" "replace") = true ∧
      (worldBoth [none, none, some ⟨Errno.EACCES, 0⟩]).fs "/in/a.txt" = some ⟨[1, 2, 3], 420⟩ ∧
      (worldBoth [none, none, some ⟨Errno.EACCES, 0⟩]).fs "/out/a.txt" = some ⟨[9], 384⟩ ∧
      (processItem envPlain cfgPlain (itemA (ruleTo "move" "replace"))
        (worldBoth [none, none, some ⟨Errno.EACCES, 0⟩]) []).world.fs "/out/a.txt"
        = some ⟨[9], 384⟩ := by
  decide

/-- C2, amended: for a rule that passes `needProcess` with `ifexists=replace` whose
destination exists (`os.MkdirAll` and `os.Stat` return no error), if `os.Remove` of the
destination succeeds and the transfer of the rule's mode (`moveFile` for `move`, `copyFile`
for `copy`) returns no error, then after the rule has been evaluated the destination holds
the file the source held, in place of the old one. -/
theorem replace_lands (env : Env) (cfg : Config) (item : processingItem) (rule : CopyRule)
    (fp : Bool) (w w1 w2 w3 : World) (dst : String) (old : File) (e1 e2 e3 : List Event)
    (hneed : needProcess cfg item rule = true)
    (habs : getAbsPath env rule.DstDir item.srcFile = Except.ok dst)
    (hmk : osMkdirAll (env.dir dst) w = (none, w1, e1))
    (hst : osStat dst w1 = (Except.ok old, w2, e2))
    (hrep : rule.IfExists = "replace")
    (hrm : osRemove dst w2 = (none, w3, e3))
    (htr : (rule.Mode = "move" ∧ (moveFile env.volumeName item.fullSrcFilePath dst w3).1 = none) ∨
      (rule.Mode = "copy" ∧ (copyFile item.fullSrcFilePath dst w3).1 = none)) :
    ∃ f, w.fs item.fullSrcFilePath = some f ∧
      (ruleBody env cfg item rule fp w).2.1.fs dst = some f := by
  have f1 : w1.fs = w.fs := by have := osMkdirAll_fs (env.dir dst) w; rwa [hmk] at this
  have f2 : w2.fs = w1.fs := by have := osStat_fs dst w1; rwa [hst] at this
  have f3 : SameExcept dst w2 w3 := by have := osRemove_frame dst w2; rwa [hrm] at this
  have hgone : w3.fs dst = none := osRemove_ok hrm
  have hne : item.fullSrcFilePath ≠ dst := by
    intro heq
    rcases htr with ⟨_, hok⟩ | ⟨_, hok⟩
    · obtain ⟨f, hs, _⟩ := moveFile_ok hok
      rw [heq, hgone] at hs
      cases hs
    · obtain ⟨f, hs⟩ := copyFile_src_exists hok
      rw [heq, hgone] at hs
      cases hs
  have htr2 : (rule.Mode = "move" ∧
        (moveFile env.volumeName item.fullSrcFilePath dst w3).1 = none) ∨
      (rule.Mode = "copy" ∧ rule.Mode ≠ "move" ∧
        (copyFile item.fullSrcFilePath dst w3).1 = none) := by
    rcases htr with h | ⟨hc, hok⟩
    · exact Or.inl h
    · exact Or.inr ⟨hc, by rw [hc]; decide, hok⟩
  obtain ⟨f, hs, hd⟩ := transfer_ok fp htr2 hne
  refine ⟨f, ?_, ?_⟩
  · rw [← f1, ← f2, ← f3 _ hne, hs]
  · unfold ruleBody
    simp only [hneed, habs, hmk, ifExists, hst, hrep, hrm, Bool.not_true, if_true]
    exact hd

/-- Witness for `replace_lands`: `/out/a.txt` exists, every call succeeds, the file is
moved over it. -/
theorem replace_lands_witness :
    ∃ f, (worldBoth []).fs "/in/a.txt" = some f ∧
      (ruleBody envPlain cfgPlain (itemA (ruleTo "move" "replace")) (ruleTo "move" "replace")
        false (worldBoth [])).2.1.fs "/out/a.txt" = some f :=
  replace_lands envPlain cfgPlain (itemA (ruleTo "move" "replace")) (ruleTo "move" "replace")
    false (worldBoth [])
    (osMkdirAll "/out" (worldBoth [])).2.1
    (osStat "/out/a.txt" (osMkdirAll "/out" (worldBoth [])).2.1).2.1
    (osRemove "/out/a.txt" (osStat "/out/a.txt" (osMkdirAll "/out" (worldBoth [])).2.1).2.1).2.1
    "/out/a.txt" ⟨[9], 384⟩ _ _ _ (by decide) rfl rfl rfl rfl rfl (Or.inl (by decide))

/-! ## Existing destination: `skip` and unknown values -/

/-- C3: for a rule (key `k`) that passes `needProcess` and whose destination exists
(`os.MkdirAll` and `os.Stat` return no error), when `ifexists` is anything but `replace`:
the rule emits only the match check, the mkdir, the stat and info-level log lines (no
removal, no move or copy); no file changes, so source and destination stay as they were;
`fileMoved` is false and `fileProcessed` keeps its value (no success is recorded); and the
loop goes on with the next rule. -/
theorem skip_policy (env : Env) (cfg : Config) (item : processingItem) (k : String)
    (ks : List String) (i : Nat) (fp : Bool) (w w1 w2 : World) (dst : String) (old : File)
    (e1 e2 : List Event)
    (hneed : needProcess cfg item (item.scangroup.Rules k) = true)
    (habs : getAbsPath env (item.scangroup.Rules k).DstDir item.srcFile = Except.ok dst)
    (hmk : osMkdirAll (env.dir dst) w = (none, w1, e1))
    (hst : osStat dst w1 = (Except.ok old, w2, e2))
    (hif : (item.scangroup.Rules k).IfExists ≠ "replace") :
    ruleBody env cfg item (item.scangroup.Rules k) fp w =
        ((false, fp), w2,
          [Event.needProcess true, Event.log Level.info item.fullSrcFilePath] ++ e1 ++ e2 ++
            [Event.log Level.info (skipMessage (item.scangroup.Rules k).IfExists)]) ∧
      (∀ e ∈ (ruleBody env cfg item (item.scangroup.Rules k) fp w).2.2,
        isRemovalOrTransfer e = false) ∧
      w2.fs = w.fs ∧
      ruleLoop env cfg item (k :: ks) i fp w =
        ((ruleLoop env cfg item ks (i + 1) fp w2).1, (ruleLoop env cfg item ks (i + 1) fp w2).2.1,
          (ruleBody env cfg item (item.scangroup.Rules k) fp w).2.2.map (fun e => (some i, e)) ++
            (ruleLoop env cfg item ks (i + 1) fp w2).2.2) := by
  have f1 : w1.fs = w.fs := by have := osMkdirAll_fs (env.dir dst) w; rwa [hmk] at this
  have f2 : w2.fs = w1.fs := by have := osStat_fs dst w1; rwa [hst] at this
  have hbody : ruleBody env cfg item (item.scangroup.Rules k) fp w =
      ((false, fp), w2,
        [Event.needProcess true, Event.log Level.info item.fullSrcFilePath] ++ e1 ++ e2 ++
          [Event.log Level.info (skipMessage (item.scangroup.Rules k).IfExists)]) := by
    unfold ruleBody
    simp only [hneed, habs, hmk, ifExists, hst, if_neg hif, Bool.not_true, skipMessage]
    by_cases hskip : (item.scangroup.Rules k).IfExists = "skip"
    · simp [hskip]
    · simp [hskip]
  refine ⟨hbody, ?_, by rw [f2, f1], ?_⟩
  · rw [hbody]
    obtain ⟨x1, hx1⟩ := osMkdirAll_events (env.dir dst) w
    obtain ⟨x2, hx2⟩ := osStat_events dst w1
    rw [hmk] at hx1
    rw [hst] at hx2
    simp only at hx1 hx2
    subst hx1 hx2
    simp [isRemovalOrTransfer]
  · rw [ruleLoop, hbody]
    simp

/-- Witness for `skip_policy`: `/out/a.txt` exists and the rule says `ifexists=skip`. -/
theorem skip_policy_witness :
    (ruleBody envPlain cfgPlain (itemA (ruleTo "move" "skip")) (ruleTo "move" "skip") false
        (worldBoth [])).1 = (false, false) ∧
      (∀ e ∈ (ruleBody envPlain cfgPlain (itemA (ruleTo "move" "skip")) (ruleTo "move" "skip")
        false (worldBoth [])).2.2, isRemovalOrTransfer e = false) :=
  have h := skip_policy envPlain cfgPlain (itemA (ruleTo "move" "skip")) "r1" [] 0 false
    (worldBoth [])
    (osMkdirAll "/out" (worldBoth [])).2.1
    (osStat "/out/a.txt" (osMkdirAll "/out" (worldBoth [])).2.1).2.1
    "/out/a.txt" ⟨[9], 384⟩ _ _ (by decide) rfl rfl rfl (by decide)
  ⟨congrArg Prod.fst h.1, h.2.1⟩

/-! ## Unknown `ifexists`: how it is reported -/

/-- C10 fails on the code: with `/out/a.txt` present and the unknown policy
`ifexists=overwrite`, the rule is skipped with a single info-level line and the trace of
`processItem` holds no `errorln` at all; the unknown `mode=mov` of the sibling `switch`, on
the other hand, is reported through `errorln`. -/
theorem unknown_ifexists_logged_at_info_only :
    (some 0, Event.log Level.info
          "Файл существует. %s Неизвестное значение ifexists=%s. Пропускаем файл")
        ∈ (processItem envPlain cfgPlain (itemA (ruleTo "move" "overwrite"))
            (worldBoth []) []).trace ∧
      (∀ t ∈ (processItem envPlain cfgPlain (itemA (ruleTo "move" "overwrite"))
            (worldBoth []) []).trace, isErrorln t.2 = false) ∧
      (some 0, Event.errorln "Неизвестный режим")
        ∈ (processItem envPlain cfgPlain (itemA (ruleTo "mov" "skip"))
            (worldSrc []) []).trace := by
  decide

/-! ## Events of one rule -/

theorem copyCall_isPrim {e : Event} (h : copyCall e = true) : isPrim e = true := by
  cases e <;> simp_all [copyCall, isPrim]

theorem any_false_of_prim {l : List Event} {q : Event → Bool}
    (hq : ∀ e, isPrim e = true → q e = false) (h : ∀ e ∈ l, isPrim e = true) :
    l.any q = false := by
  rw [List.any_eq_false]
  intro e he
  simp [hq e (h e he)]

theorem isMoveOk_prim (e : Event) (h : isPrim e = true) : isMoveOk e = false := by
  cases e <;> simp_all [isPrim, isMoveOk]

theorem isCopyOk_prim (e : Event) (h : isPrim e = true) : isCopyOk e = false := by
  cases e <;> simp_all [isPrim, isCopyOk]

theorem copyFile_prim (src dst : String) (w : World) :
    ∀ e ∈ (copyFile src dst w).2.2, isPrim e = true :=
  fun e he => copyCall_isPrim (copyFile_events src dst w e he)

theorem moveFile_prim (volumeName : String → String) (src dst : String) (w : World) :
    ∀ e ∈ (moveFile volumeName src dst w).2.2, isPrim e = true := by
  unfold moveFile
  split
  · obtain ⟨x, hx⟩ := osRename_events src dst w
    rcases h1 : osRename src dst w with ⟨r1, w1, e1⟩
    rw [h1] at hx
    simp only at hx
    subst hx
    cases r1 <;> simp [isPrim]
  · rcases h1 : osOpenFile src w with ⟨r1, w1, e1⟩
    obtain ⟨x1, hx1⟩ := probe_events Sys.openFile "open" src w
    unfold osOpenFile at h1
    rw [h1] at hx1
    simp only at hx1
    subst hx1
    cases r1 with
    | some err => simp [isPrim]
    | none =>
      simp only
      rcases h2 : fileClose src w1 with ⟨r2, w2, e2⟩
      obtain ⟨x2, hx2⟩ := fileClose_events src w1
      rw [h2] at hx2
      simp only at hx2
      subst hx2
      cases r2 with
      | some err => simp [isPrim]
      | none =>
        simp only
        rcases h3 : copyFile src dst w2 with ⟨r3, w3, e3⟩
        have hc := copyFile_prim src dst w2
        rw [h3] at hc
        simp only at hc
        cases r3 with
        | some err =>
          simp only
          intro e he
          simp only [List.mem_append, List.mem_cons, List.not_mem_nil, or_false] at he
          casesm* _ ∨ _
          all_goals first | (subst_vars; rfl) | exact hc e ‹_›
        | none =>
          simp only
          rcases h4 : osRemove src w3 with ⟨r4, w4, e4⟩
          obtain ⟨x4, hx4⟩ := osRemove_events src w3
          rw [h4] at hx4
          simp only at hx4
          subst hx4
          cases r4 with
          | none =>
            simp only
            intro e he
            simp only [List.mem_append, List.mem_cons, List.not_mem_nil, or_false] at he
            casesm* _ ∨ _
            all_goals first | (subst_vars; rfl) | exact hc e ‹_›
          | some err =>
            simp only
            split
            all_goals
              intro e he
              simp only [List.mem_append, List.mem_cons, List.not_mem_nil, or_false] at he
              casesm* _ ∨ _
              all_goals first | (subst_vars; rfl) | exact hc e ‹_›

theorem transfer_spec (env : Env) (item : processingItem) (rule : CopyRule) (dst : String)
    (fp : Bool) (w : World) : BodySpec fp (transfer env item rule dst fp w) := by
  unfold transfer
  split
  · rcases h1 : moveFile env.volumeName item.fullSrcFilePath dst w with ⟨r1, w1, e1⟩
    have hp := moveFile_prim env.volumeName item.fullSrcFilePath dst w
    rw [h1] at hp
    simp only at hp
    have hm := any_false_of_prim isMoveOk_prim hp
    have hc := any_false_of_prim isCopyOk_prim hp
    cases r1 <;> constructor <;>
      simp [List.any_append, hm, hc, isMoveOk, isCopyOk]
  · split
    · rcases h1 : copyFile item.fullSrcFilePath dst w with ⟨r1, w1, e1⟩
      have hp := copyFile_prim item.fullSrcFilePath dst w
      rw [h1] at hp
      simp only at hp
      have hm := any_false_of_prim isMoveOk_prim hp
      have hc := any_false_of_prim isCopyOk_prim hp
      cases r1 <;> constructor <;>
        simp [List.any_append, hm, hc, isMoveOk, isCopyOk]
    · constructor <;> simp [isMoveOk, isCopyOk]

/-- Prefixing events that are no transfer results keeps the specification. -/
theorem BodySpec.prepend {fp : Bool} {r : Res (Bool × Bool)} (h : BodySpec fp r)
    (pre : List Event) (hm : pre.any isMoveOk = false) (hc : pre.any isCopyOk = false) :
    BodySpec fp (r.1, r.2.1, pre ++ r.2.2) := by
  constructor
  · simp [List.any_append, hm, h.moved]
  · simp only [List.any_append, hm, hc, Bool.false_or]
    exact h.processed
  · simp only [List.any_append, hm, hc, Bool.false_or]
    exact h.exclusive

/-- An iteration that ends in `continue` before any transfer. -/
theorem BodySpec.skip (fp : Bool) (w : World) (es : List Event)
    (hm : es.any isMoveOk = false) (hc : es.any isCopyOk = false) :
    BodySpec fp ((false, fp), w, es) := by
  constructor <;> simp [hm, hc]

theorem ifExists_spec (env : Env) (item : processingItem) (rule : CopyRule) (dst : String)
    (fp : Bool) (w : World) : BodySpec fp (ifExists env item rule dst fp w) := by
  unfold ifExists
  rcases h1 : osStat dst w with ⟨r1, w1, e1⟩
  obtain ⟨x1, hx1⟩ := osStat_events dst w
  rw [h1] at hx1
  simp only at hx1
  subst hx1
  cases r1 with
  | error err =>
    simp only
    exact (transfer_spec env item rule dst fp w1).prepend _ (by simp [isMoveOk])
      (by simp [isCopyOk])
  | ok info =>
    simp only
    split
    · rcases h2 : osRemove dst w1 with ⟨r2, w2, e2⟩
      obtain ⟨x2, hx2⟩ := osRemove_events dst w1
      rw [h2] at hx2
      simp only at hx2
      subst hx2
      cases r2 with
      | some err =>
        exact BodySpec.skip fp w2 _ (by simp [isMoveOk]) (by simp [isCopyOk])
      | none =>
        simp only
        have := (transfer_spec env item rule dst fp w2).prepend
          ([Event.sys Sys.stat dst x1] ++
            [Event.log Level.info
              "Файл существует. %s ifexists=%s. Удаляем файл в конечном каталоге"] ++
            [Event.sys Sys.remove dst x2]) (by simp [isMoveOk]) (by simp [isCopyOk])
        simpa using this
    · split
      · exact BodySpec.skip fp w1 _ (by simp [isMoveOk]) (by simp [isCopyOk])
      · exact BodySpec.skip fp w1 _ (by simp [isMoveOk]) (by simp [isCopyOk])

theorem ruleBody_spec (env : Env) (cfg : Config) (item : processingItem) (rule : CopyRule)
    (fp : Bool) (w : World) : BodySpec fp (ruleBody env cfg item rule fp w) := by
  unfold ruleBody
  split
  · exact BodySpec.skip fp w _ (by simp [isMoveOk]) (by simp [isCopyOk])
  · split
    · exact BodySpec.skip fp w _ (by simp [isMoveOk]) (by simp [isCopyOk])
    · rename_i dst _
      simp only
      rcases h1 : osMkdirAll (env.dir dst) w with ⟨r1, w1, e1⟩
      obtain ⟨x1, hx1⟩ := osMkdirAll_events (env.dir dst) w
      rw [h1] at hx1
      simp only at hx1
      subst hx1
      cases r1 with
      | some err => exact BodySpec.skip fp w1 _ (by simp [isMoveOk]) (by simp [isCopyOk])
      | none =>
        simp only
        have := (ifExists_spec env item rule dst fp w1).prepend
          ([Event.needProcess true, Event.log Level.info item.fullSrcFilePath] ++
            [Event.sys Sys.mkdirAll (env.dir dst) x1]) (by simp [isMoveOk]) (by simp [isCopyOk])
        simpa using this

/-- Every iteration starts with the match check. -/
theorem ruleBody_check (env : Env) (cfg : Config) (item : processingItem) (rule : CopyRule)
    (fp : Bool) (w : World) :
    ∃ b, Event.needProcess b ∈ (ruleBody env cfg item rule fp w).2.2 := by
  unfold ruleBody
  split
  · exact ⟨false, by simp⟩
  · refine ⟨true, ?_⟩
    split
    · simp
    · simp only
      split <;> simp

/-! ## The loop over the rules -/

theorem mem_tag {i j : Nat} {e : Event} {es : List Event}
    (h : (some j, e) ∈ es.map (fun e => ((some i, e) : Tagged))) : j = i ∧ e ∈ es := by
  rw [List.mem_map] at h
  obtain ⟨a, ha, heq⟩ := h
  cases heq
  exact ⟨rfl, ha⟩

theorem any_true_of_mem {q : Event → Bool} {e : Event} {es : List Event} (he : e ∈ es)
    (hq : q e = true) : es.any q = true :=
  List.any_eq_true.mpr ⟨e, he, hq⟩

/-- Events of the loop started at position `i` carry positions from `i` on. -/
theorem ruleLoop_tags (env : Env) (cfg : Config) (item : processingItem) :
    ∀ (ks : List String) (i : Nat) (fp : Bool) (w : World) (t : Tagged),
      t ∈ (ruleLoop env cfg item ks i fp w).2.2 → ∃ j e, t = (some j, e) ∧ i ≤ j := by
  intro ks
  induction ks with
  | nil => intro i fp w t ht; simp [ruleLoop] at ht
  | cons k ks ih =>
    intro i fp w t ht
    rcases hb : ruleBody env cfg item (item.scangroup.Rules k) fp w with ⟨⟨moved, fp1⟩, w1, e1⟩
    simp only [ruleLoop, hb] at ht
    cases moved with
    | true =>
      simp only [if_true, List.mem_map] at ht
      obtain ⟨a, _, rfl⟩ := ht
      exact ⟨i, a, rfl, le_refl i⟩
    | false =>
      simp only [Bool.false_eq_true, if_false, List.mem_append, List.mem_map] at ht
      rcases ht with ⟨a, _, rfl⟩ | ht
      · exact ⟨i, a, rfl, le_refl i⟩
      · obtain ⟨j, e, rfl, hj⟩ := ih (i + 1) fp1 w1 t ht
        exact ⟨j, e, rfl, by omega⟩

/-- After a `moveFile` without error at position `j` no event of a later position exists. -/
theorem ruleLoop_move_last (env : Env) (cfg : Config) (item : processingItem) :
    ∀ (ks : List String) (i : Nat) (fp : Bool) (w : World) (j : Nat) (e : Event),
      (some j, e) ∈ (ruleLoop env cfg item ks i fp w).2.2 → isMoveOk e = true →
      ∀ (j2 : Nat) (e2 : Event), (some j2, e2) ∈ (ruleLoop env cfg item ks i fp w).2.2 →
        j2 ≤ j := by
  intro ks
  induction ks with
  | nil => intro i fp w j e ht; simp [ruleLoop] at ht
  | cons k ks ih =>
    intro i fp w j e ht hmove j2 e2 ht2
    rcases hb : ruleBody env cfg item (item.scangroup.Rules k) fp w with ⟨⟨moved, fp1⟩, w1, e1⟩
    have spec := ruleBody_spec env cfg item (item.scangroup.Rules k) fp w
    rw [hb] at spec
    simp only [ruleLoop, hb] at ht ht2
    cases moved with
    | true =>
      simp only [if_true] at ht ht2
      rw [(mem_tag ht).1, (mem_tag ht2).1]
    | false =>
      simp only [Bool.false_eq_true, if_false, List.mem_append] at ht ht2
      rcases ht with ht | ht
      · have := any_true_of_mem (mem_tag ht).2 hmove
        have hm := spec.moved
        simp only at hm
        rw [this] at hm
        cases hm
      · rcases ht2 with ht2 | ht2
        · obtain ⟨j3, e3, heq, hj⟩ := ruleLoop_tags env cfg item ks (i + 1) fp1 w1 _ ht
          cases heq
          rw [(mem_tag ht2).1]
          omega
        · exact ih (i + 1) fp1 w1 j e ht hmove j2 e2 ht2

/-- After a `copyFile` without error at position `j` the rule at position `j + 1`, when
there is one, gets its match check. -/
theorem ruleLoop_copy_next (env : Env) (cfg : Config) (item : processingItem) :
    ∀ (ks : List String) (i : Nat) (fp : Bool) (w : World) (j : Nat) (e : Event),
      (some j, e) ∈ (ruleLoop env cfg item ks i fp w).2.2 → isCopyOk e = true →
      j + 1 < i + ks.length →
      ∃ b, (some (j + 1), Event.needProcess b) ∈ (ruleLoop env cfg item ks i fp w).2.2 := by
  intro ks
  induction ks with
  | nil => intro i fp w j e ht; simp [ruleLoop] at ht
  | cons k ks ih =>
    intro i fp w j e ht hcopy hlen
    rcases hb : ruleBody env cfg item (item.scangroup.Rules k) fp w with ⟨⟨moved, fp1⟩, w1, e1⟩
    have spec := ruleBody_spec env cfg item (item.scangroup.Rules k) fp w
    rw [hb] at spec
    simp only [ruleLoop, hb] at ht ⊢
    cases moved with
    | true =>
      simp only [if_true] at ht
      have hc := any_true_of_mem (mem_tag ht).2 hcopy
      have hm := spec.moved
      have hx := spec.exclusive hc
      simp only at hm hx
      rw [hx] at hm
      cases hm
    | false =>
      simp only [Bool.false_eq_true, if_false, List.mem_append] at ht ⊢
      rcases ht with ht | ht
      · have hj := (mem_tag ht).1
        subst hj
        cases ks with
        | nil => simp at hlen
        | cons k2 ks2 =>
          obtain ⟨b, hbm⟩ := ruleBody_check env cfg item (item.scangroup.Rules k2) fp1 w1
          refine ⟨b, Or.inr ?_⟩
          rcases hb2 : ruleBody env cfg item (item.scangroup.Rules k2) fp1 w1 with
            ⟨⟨moved2, fp2⟩, w2, e2⟩
          rw [hb2] at hbm
          simp only [ruleLoop, hb2]
          cases moved2 with
          | true =>
            simp only [if_true]
            exact List.mem_map.mpr ⟨_, hbm, rfl⟩
          | false =>
            simp only [Bool.false_eq_true, if_false, List.mem_append]
            exact Or.inl (List.mem_map.mpr ⟨_, hbm, rfl⟩)
      · have hlen2 : j + 1 < i + 1 + ks.length := by
          simp only [List.length_cons] at hlen
          omega
        obtain ⟨b, hbm⟩ := ih (i + 1) fp1 w1 j e ht hcopy hlen2
        exact ⟨b, Or.inr hbm⟩

/-- The final `fileProcessed`: its initial value, or some transfer returned without error. -/
theorem ruleLoop_processed (env : Env) (cfg : Config) (item : processingItem) :
    ∀ (ks : List String) (i : Nat) (fp : Bool) (w : World),
      (ruleLoop env cfg item ks i fp w).1 =
        (fp || (ruleLoop env cfg item ks i fp w).2.2.any
          (fun t => isMoveOk t.2 || isCopyOk t.2)) := by
  intro ks
  induction ks with
  | nil => intro i fp w; simp [ruleLoop]
  | cons k ks ih =>
    intro i fp w
    rcases hb : ruleBody env cfg item (item.scangroup.Rules k) fp w with ⟨⟨moved, fp1⟩, w1, e1⟩
    have spec := ruleBody_spec env cfg item (item.scangroup.Rules k) fp w
    rw [hb] at spec
    have hp := spec.processed
    simp only at hp
    have hmap : (e1.map (fun e => ((some i, e) : Tagged))).any
        (fun t => isMoveOk t.2 || isCopyOk t.2) = (e1.any isMoveOk || e1.any isCopyOk) := by
      clear hb spec hp
      induction e1 with
      | nil => rfl
      | cons a l ihl =>
        simp only [List.map_cons, List.any_cons] at ihl ⊢
        rw [ihl]
        cases isMoveOk a <;> cases isCopyOk a <;> cases l.any isMoveOk <;> simp
    simp only [ruleLoop, hb]
    cases moved with
    | true =>
      simp only [if_true]
      rw [hmap, hp, Bool.or_assoc]
    | false =>
      simp only [Bool.false_eq_true, if_false]
      rw [ih (i + 1) fp1 w1, List.any_append, hmap, hp]
      simp [Bool.or_assoc]

/-! ## processItem -/

/-- The events of `processItem` that carry a rule position are those of the loop. -/
theorem mem_trace_iff (env : Env) (cfg : Config) (item : processingItem) (w : World)
    (cache : ProcessingCache) (j : Nat) (e : Event) :
    (some j, e) ∈ (processItem env cfg item w cache).trace ↔
      (some j, e) ∈ (ruleLoop env cfg item item.scangroup.getRuleKeys 0 false w).2.2 := by
  unfold processItem
  rcases ruleLoop env cfg item item.scangroup.getRuleKeys 0 false w with ⟨fp, w1, e1⟩
  cases fp <;> simp

/-- C1: in the trace of `processItem`, when the rule at position `i` ran `moveFile` and it
returned no error, no event of a later rule exists (no match check, no call into `os`, no
transfer: every event of a rule has a position `j ≤ i`); when the rule at position `i` ran
`copyFile` and it returned no error and a rule follows in `getRuleKeys()`, that next rule
gets its match check. -/
theorem rule_short_circuit (env : Env) (cfg : Config) (item : processingItem) (w : World)
    (cache : ProcessingCache) (i : Nat) (src dst : String) :
    ((some i, Event.moveFile src dst none) ∈ (processItem env cfg item w cache).trace →
        ∀ (j : Nat) (e : Event), (some j, e) ∈ (processItem env cfg item w cache).trace →
          j ≤ i) ∧
      ((some i, Event.copyFile src dst none) ∈ (processItem env cfg item w cache).trace →
        i + 1 < item.scangroup.getRuleKeys.length →
        ∃ b, (some (i + 1), Event.needProcess b) ∈ (processItem env cfg item w cache).trace) := by
  constructor
  · intro hm j e he
    rw [mem_trace_iff] at hm he
    exact ruleLoop_move_last env cfg item _ 0 false w i _ hm rfl j e he
  · intro hc hlen
    rw [mem_trace_iff] at hc
    obtain ⟨b, hb⟩ := ruleLoop_copy_next env cfg item _ 0 false w i _ hc rfl (by omega)
    exact ⟨b, (mem_trace_iff env cfg item w cache (i + 1) _).mpr hb⟩

/-- Witness for `rule_short_circuit`: rule `a` copies, rule `b` is then checked and moves,
and nothing follows the move. -/
theorem rule_short_circuit_witness :
    (∀ (j : Nat) (e : Event),
        (some j, e) ∈ (processItem envPlain cfgPlain itemCopyMove (worldSrc []) []).trace →
          j ≤ 1) ∧
      ∃ b, (some (0 + 1), Event.needProcess b)
        ∈ (processItem envPlain cfgPlain itemCopyMove (worldSrc []) []).trace :=
  ⟨(rule_short_circuit envPlain cfgPlain itemCopyMove (worldSrc []) [] 1
      "/in/a.txt" "/arch/a.txt").1 (by decide),
   (rule_short_circuit envPlain cfgPlain itemCopyMove (worldSrc []) [] 0
      "/in/a.txt" "/out/a.txt").2 (by decide) (by decide)⟩

/-- C4: the item is sent on `savestatchan` exactly when some rule's `moveFile` or
`copyFile` returned without error, and then once: `sent` is `[item]` in that case and
empty otherwise, whatever the number of successful copies. -/
theorem stat_report (env : Env) (cfg : Config) (item : processingItem) (w : World)
    (cache : ProcessingCache) :
    ((∃ (i : Nat) (src dst : String),
          (some i, Event.moveFile src dst none) ∈ (processItem env cfg item w cache).trace ∨
          (some i, Event.copyFile src dst none) ∈ (processItem env cfg item w cache).trace) →
        (processItem env cfg item w cache).sent = [item]) ∧
      ((¬ ∃ (i : Nat) (src dst : String),
          (some i, Event.moveFile src dst none) ∈ (processItem env cfg item w cache).trace ∨
          (some i, Event.copyFile src dst none) ∈ (processItem env cfg item w cache).trace) →
        (processItem env cfg item w cache).sent = []) := by
  have hp := ruleLoop_processed env cfg item item.scangroup.getRuleKeys 0 false w
  have hsent : (processItem env cfg item w cache).sent =
      if (ruleLoop env cfg item item.scangroup.getRuleKeys 0 false w).1 then [item] else [] := by
    unfold processItem
    rfl
  simp only [mem_trace_iff]
  rw [hsent, hp, Bool.false_or]
  constructor
  · rintro ⟨i, src, dst, h | h⟩
    · have : (ruleLoop env cfg item item.scangroup.getRuleKeys 0 false w).2.2.any
          (fun t => isMoveOk t.2 || isCopyOk t.2) = true :=
        List.any_eq_true.mpr ⟨_, h, by simp [isMoveOk]⟩
      rw [this]
      rfl
    · have : (ruleLoop env cfg item item.scangroup.getRuleKeys 0 false w).2.2.any
          (fun t => isMoveOk t.2 || isCopyOk t.2) = true :=
        List.any_eq_true.mpr ⟨_, h, by simp [isCopyOk]⟩
      rw [this]
      rfl
  · intro hno
    cases hany : (ruleLoop env cfg item item.scangroup.getRuleKeys 0 false w).2.2.any
        (fun t => isMoveOk t.2 || isCopyOk t.2) with
    | false => rfl
    | true =>
      exfalso
      apply hno
      obtain ⟨t, ht, hq⟩ := List.any_eq_true.mp hany
      obtain ⟨j, e, rfl, _⟩ := ruleLoop_tags env cfg item _ 0 false w t ht
      cases e with
      | moveFile s d r =>
        cases r with
        | none => exact ⟨j, s, d, Or.inl ht⟩
        | some err => simp [isMoveOk, isCopyOk] at hq
      | copyFile s d r =>
        cases r with
        | none => exact ⟨j, s, d, Or.inr ht⟩
        | some err => simp [isMoveOk, isCopyOk] at hq
      | _ => simp [isMoveOk, isCopyOk] at hq

/-- Witness for `stat_report`: rule `a` copies and rule `b` moves, the item is sent once. -/
theorem stat_report_witness :
    (processItem envPlain cfgPlain itemCopyMove (worldSrc []) []).sent = [itemCopyMove] :=
  (stat_report envPlain cfgPlain itemCopyMove (worldSrc []) []).1
    ⟨0, "/in/a.txt", "/out/a.txt", Or.inr (by decide)⟩

/-- C5: whatever the rules and the outcomes of the filesystem calls, after `processItem`
has handled an item its `fullSrcFilePath` is not in the cache, and every other path is in
the cache exactly when it was before. -/
theorem cache_release (env : Env) (cfg : Config) (item : processingItem) (w : World)
    (cache : ProcessingCache) :
    (processItem env cfg item w cache).cache.check item.fullSrcFilePath = false ∧
      ∀ p, p ≠ item.fullSrcFilePath →
        (processItem env cfg item w cache).cache.check p = cache.check p := by
  have hc : (processItem env cfg item w cache).cache = cache.del item.fullSrcFilePath := by
    unfold processItem
    rfl
  rw [hc]
  constructor
  · simp [ProcessingCache.check, ProcessingCache.del]
  · intro p hp
    simp [ProcessingCache.check, ProcessingCache.del, hp]

/-- Witness for `cache_release`: the transfer fails (the source is missing), the path of
the item leaves the cache and `/in/b.txt` stays. -/
theorem cache_release_witness :
    (processItem envPlain cfgPlain (itemA (ruleTo "move" "skip"))
        { fs := fun _ => none, faults := [] } ["/in/a.txt", "/in/b.txt"]).cache.check "/in/b.txt"
      = ProcessingCache.check ["/in/a.txt", "/in/b.txt"] "/in/b.txt" :=
  (cache_release envPlain cfgPlain (itemA (ruleTo "move" "skip"))
    { fs := fun _ => none, faults := [] } ["/in/a.txt", "/in/b.txt"]).2 "/in/b.txt" (by decide)

/-! ## The scan filter -/

theorem needExclude_zero (cfg : Config) (file : String) (scangroup : ScanGroup) :
    needExclude cfg file scangroup CopyRule.zero =
      (cfg.matchExclude file || scangroup.matchExclude file) := by
  unfold needExclude CopyRule.zero
  cases cfg.matchExclude file <;> cases scangroup.matchExclude file <;> simp

theorem check_add (c : ProcessingCache) (p q : String) :
    (c.add p).check q = (decide (q = p) || c.check q) := by
  simp [ProcessingCache.check, ProcessingCache.add]

theorem processItems_spec (env : Env) (cfg : Config) (fullSrcDir : String)
    (scangroup : ScanGroup) :
    ∀ (items : List FileInfo) (cache : ProcessingCache),
      (items.map (fun e => env.join fullSrcDir e.Name)).Nodup →
      (processItems env cfg fullSrcDir scangroup items cache).2 =
          (items.filter (wanted env cfg fullSrcDir scangroup cache)).map
            (toItem env fullSrcDir scangroup) ∧
        ∀ p, (processItems env cfg fullSrcDir scangroup items cache).1.check p =
          (cache.check p ||
            decide (p ∈ ((processItems env cfg fullSrcDir scangroup items cache).2.map
              (fun it => it.fullSrcFilePath)))) := by
  intro items
  induction items with
  | nil => intro cache _; simp [processItems]
  | cons a l ih =>
    intro cache hnd
    rw [List.map_cons, List.nodup_cons] at hnd
    obtain ⟨hnot, hnd⟩ := hnd
    unfold processItems
    cases hreg : a.IsRegular with
    | false =>
      have hw : wanted env cfg fullSrcDir scangroup cache a = false := by simp [wanted, hreg]
      simp only [Bool.not_false, if_true, List.filter_cons, hw, Bool.false_eq_true, if_false]
      exact ih cache hnd
    | true =>
      simp only [Bool.not_true, Bool.false_eq_true, if_false]
      cases hex : needExclude cfg a.Name scangroup CopyRule.zero with
      | true =>
        have hw : wanted env cfg fullSrcDir scangroup cache a = false := by
          rw [needExclude_zero] at hex
          unfold wanted
          cases h1 : cfg.matchExclude a.Name <;> cases h2 : scangroup.matchExclude a.Name <;>
            simp_all
        simp only [if_true, List.filter_cons, hw, Bool.false_eq_true, if_false]
        exact ih cache hnd
      | false =>
        simp only [Bool.false_eq_true, if_false]
        rw [needExclude_zero] at hex
        cases hchk : cache.check (env.join fullSrcDir a.Name) with
        | true =>
          have hw : wanted env cfg fullSrcDir scangroup cache a = false := by
            simp [wanted, hchk]
          simp only [if_true, List.filter_cons, hw, Bool.false_eq_true, if_false]
          exact ih cache hnd
        | false =>
          have hw : wanted env cfg fullSrcDir scangroup cache a = true := by
            unfold wanted
            cases h1 : cfg.matchExclude a.Name <;> cases h2 : scangroup.matchExclude a.Name <;>
              simp_all
          obtain ⟨ih1, ih2⟩ := ih (cache.add (env.join fullSrcDir a.Name)) hnd
          have hfilter : l.filter (wanted env cfg fullSrcDir scangroup
                (cache.add (env.join fullSrcDir a.Name))) =
              l.filter (wanted env cfg fullSrcDir scangroup cache) := by
            apply List.filter_congr
            intro e he
            have hne : env.join fullSrcDir e.Name ≠ env.join fullSrcDir a.Name := by
              intro heq
              exact hnot (List.mem_map.mpr ⟨e, he, heq⟩)
            simp [wanted, check_add, hne]
          rw [hfilter] at ih1
          simp only [Bool.false_eq_true, if_false, List.filter_cons, hw, if_true, List.map_cons]
          refine ⟨by rw [ih1]; rfl, ?_⟩
          intro p
          rw [ih2 p, check_add]
          by_cases hp : p = env.join fullSrcDir a.Name
          · simp [hp]
          · simp [hp, Bool.or_comm]

/-- C8: for a directory listing whose entries have pairwise distinct joined paths (the
names of one directory are distinct), `processItems` submits, in listing order, exactly
the entries that are regular files, are excluded neither by the global nor by the group
predicate, and whose path `filepath.Join(dir, name)` was not in the initial cache; each item
carries the name, that path, the group and the size; afterwards a path is in the cache
exactly when it was in the initial cache or is the path of a submitted item. -/
theorem scan_filter (env : Env) (cfg : Config) (fullSrcDir : String) (scangroup : ScanGroup)
    (items : List FileInfo) (cache : ProcessingCache)
    (hnames : (items.map (fun e => env.join fullSrcDir e.Name)).Nodup) :
    (processItems env cfg fullSrcDir scangroup items cache).2 =
        (items.filter (fun e =>
            e.IsRegular && !cfg.matchExclude e.Name && !scangroup.matchExclude e.Name &&
              !cache.check (env.join fullSrcDir e.Name))).map
          (fun e => { srcFile := e.Name, fullSrcFilePath := env.join fullSrcDir e.Name,
                      scangroup := scangroup, size := e.Size }) ∧
      ∀ p, (processItems env cfg fullSrcDir scangroup items cache).1.check p = true ↔
        (cache.check p = true ∨
          p ∈ (processItems env cfg fullSrcDir scangroup items cache).2.map
            (fun it => it.fullSrcFilePath)) := by
  obtain ⟨h1, h2⟩ := processItems_spec env cfg fullSrcDir scangroup items cache hnames
  refine ⟨h1, ?_⟩
  intro p
  rw [h2 p]
  simp

/-- Witness for `scan_filter`: of the four entries only `a.txt` is submitted, and its path
is in the cache afterwards. -/
theorem scan_filter_witness :
    (processItems envPlain cfgNoTmp "/in" (groupOne (ruleTo "move" "skip")) listingIn
        ["/in/c.txt"]).1.check "/in/a.txt" = true :=
  ((scan_filter envPlain cfgNoTmp "/in" (groupOne (ruleTo "move" "skip")) listingIn
    ["/in/c.txt"] (by decide)).2 "/in/a.txt").mpr (Or.inr (by decide))

/-! ## Reload of the configuration -/

/-- C9 fails on the code: no pass of `scanLoop` ever changes the package-level `cfg`.
After a pass with a successful reload to `cfgReloaded` the next pass does dispatch the two
new groups and sleeps the new 60 seconds, but `needExclude` still consults the startup
configuration: `b.tmp`, excluded by the new global list, is not excluded, and the scanner
submits it. -/
theorem reload_leaves_global_exclusions :
    (∀ (reload : Except GoError Config) (initLogger : Config → Option GoError) (v : Vars),
        (scanLoopPass reload initLogger v).vars.global = v.global) ∧
      (scanLoopPass (Except.error errNotModified) (fun _ => none) varsAfterReload).dispatched.length
        = 2 ∧
      (scanLoopPass (Except.error errNotModified) (fun _ => none) varsAfterReload).sleep = 60 ∧
      cfgReloaded.matchExclude "b.tmp" = true ∧
      needExclude varsAfterReload.global "b.tmp" (groupOne (ruleTo "copy" "skip")) CopyRule.zero
        = false ∧
      (processItems envPlain varsAfterReload.global "/in" (groupOne (ruleTo "copy" "skip"))
          [{ Name := "b.tmp", IsRegular := true, Size := 1 }] []).2.map (fun it => it.srcFile)
        = ["b.tmp"] := by
  refine ⟨?_, by decide, by decide, by decide, by decide, by decide⟩
  intro reload initLogger v
  unfold scanLoopPass
  cases reload with
  | error err => rfl
  | ok cfgTmp =>
    simp only
    cases initLogger cfgTmp <;> rfl

end Gotosser

